import Mathlib

/-!
# nnef2ada: a shallow embedding of the Ada code generator

The generator of `src/nnef2ada.cpp` walks a loaded, shape-inferred NNEF graph
and prints three Ada units.  Text written to a `std::ostringstream` is a
`String` here, `std::endl` is a line feed, and a call that can throw
(`std::map::at`, a `Value` accessor applied to the wrong kind, `inputs[0]` of an
empty vector) returns `none`.

The header `nnef.h` is not among the sources.  Two things it fixes are
parameters of the embedding, collected in `Header`: the width of `integer_t`,
in which `value.integer() + 1` is computed, and the stream inserter
`operator<<(std::ostream&, const Value&)`.  The operator of the generator
itself takes a `std::ostringstream&`, so that it is chosen only where the left
operand is the string stream itself (`os << value[i]`); after a chained `<<`
the left operand is a `std::ostream&` and the inserter of the header is the
one called.
-/

namespace Nnef2Ada

/-! ## Data model (`nnef.h`) -/

/-- Modelled from the spec: `nnef::Value::scalar_t` is a floating-point type
declared in `nnef.h`, which is not among the sources.  A scalar is kept as the
two things the generator observes of it: the text the stream writes for it and
whether the cast `(integer_t) x == x` holds. -/
structure Scalar where
  text : String
  integral : Bool

/-- Modelled from the spec: the tags of `nnef::Value::Kind` (section 3,
"Value: a closed tagged union"). -/
inductive Kind where
  | None | String | Identifier | Logical | Integer | Scalar | Array | Tuple
  deriving DecidableEq

/-- Modelled from the spec: `nnef::Value` of `nnef.h` (section 3).  An integer
value is kept as the number it denotes; the width of `integer_t` is the
`integerBits` of `Header`. -/
inductive Value where
  | none
  | string (s : String)
  | identifier (s : String)
  | logical (b : Bool)
  | integer (v : Int)
  | scalar (x : Scalar)
  | array (items : List Value)
  | tuple (items : List Value)

/-- Modelled from the spec: `Value::kind()`. -/
def Value.kind : Value → Kind
  | .none => .None
  | .string _ => .String
  | .identifier _ => .Identifier
  | .logical _ => .Logical
  | .integer _ => .Integer
  | .scalar _ => .Scalar
  | .array _ => .Array
  | .tuple _ => .Tuple

/-- Modelled from the spec: `Value::string()`; it fails on any other kind. -/
def Value.string? : Value → Option String
  | .string s => some s
  | _ => Option.none

/-- Modelled from the spec: `Value::identifier()`; it fails on any other kind. -/
def Value.identifier? : Value → Option String
  | .identifier s => some s
  | _ => Option.none

/-- Modelled from the spec: `Value::integer()`; it fails on any other kind. -/
def Value.integer? : Value → Option Int
  | .integer v => some v
  | _ => Option.none

/-- Modelled from the spec: `nnef::Tensor` (section 3); `shape` is a
`std::vector<int>`. -/
structure Tensor where
  name : String
  dtype : String
  shape : List Int

/-- Modelled from the spec: `nnef::Operation` (section 3); the three argument
lists are ordered sequences of (name, value) pairs. -/
structure Operation where
  name : String
  inputs : List (String × Value)
  outputs : List (String × Value)
  attribs : List (String × Value)

/-- Modelled from the spec: `nnef::Graph` (section 3); `tensors` is the
`std::map` from identifier to tensor, kept as an association list. -/
structure Graph where
  name : String
  inputs : List String
  outputs : List String
  tensors : List (String × Tensor)
  operations : List Operation

/-- The call `graph.tensors.at(id)`: it throws when the key is absent. -/
def Graph.tensorsAt (graph : Graph) (id : String) : Option Tensor :=
  graph.tensors.lookup id

/-- Modelled from the spec: `attribs.get(key)` of the dictionary class in
`nnef.h`: the value stored under the key, the `None` value when there is no
such key. -/
def Operation.attribsGet (op : Operation) (key : String) : Value :=
  (op.attribs.lookup key).getD Value.none

/-- The two facts about `nnef.h` that the generator depends on and that no file
of the sources fixes: the width in bits of `Value::integer_t`, and the text that
the stream inserter of the header, `operator<<(std::ostream&, const Value&)`,
writes for a value.  Both are parameters of the embedding. -/
structure Header where
  integerBits : Nat
  print : Value → String

/-! ## Stream output of numbers -/

/-- A result of arithmetic in `integer_t`, a signed type of `bits` bits: the
number is reduced modulo `2^bits` into the range from `-2^(bits-1)` to
`2^(bits-1) - 1`, the two's-complement result of an addition that leaves the
range. -/
def wrapInteger (bits : Nat) (x : Int) : Int :=
  (x + 2 ^ (bits - 1)) % 2 ^ bits - 2 ^ (bits - 1)

/-- The text `os << n` writes for an integer: decimal digits, a leading minus
sign for a negative number. -/
def decimal : Int → String
  | .ofNat n => Nat.repr n
  | .negSucc n => "-" ++ Nat.repr (n + 1)

/-- The loop `for (i = start ..) { if (i) os << ", "; os << f(xs[i]); }` over the
elements from index `i` on. -/
def sepLoop {α : Type} (f : α → String) : Nat → List α → String
  | _, [] => ""
  | i, x :: xs => (if i ≠ 0 then ", " else "") ++ f x ++ sepLoop f (i + 1) xs

/-! ## Type mapper -/

def tensor_type (dtype : String) : String :=
  if dtype = "scalar" then "Real"
  else if dtype = "integer" then "Integer"
  else if dtype = "logical" then "Boolean"
  else dtype

def tensor_rank (rank : Nat) : String :=
  match rank with
  | 1 => "Vector"
  | 2 => "Matrix"
  | 3 => "Tensor_3D"
  | 4 => "Tensor_4D"
  | _ => "Tensor"

def tensor_extents (shape : List Int) : String :=
  sepLoop (fun n => "1.." ++ decimal n) 0 shape

/-- The function `tensor_id`; `op_list` is the file-scope vector it searches. -/
def tensor_id (op_list : List String) (id : String) : String :=
  if id ∈ op_list then id ++ "_0" else id

def tensor_typename (tensor : Tensor) : String :=
  tensor_type tensor.dtype ++ "_" ++ tensor_rank tensor.shape.length

def tensor_declaration (op_list : List String) (tensor : Tensor) : String :=
  tensor_id op_list tensor.name ++ ": " ++ tensor_typename tensor ++ " ("
    ++ tensor_extents tensor.shape ++ ");"

/-! ## Value renderer -/

/-- The two statements of the `Scalar` case: the stream's text, then `".0"`
when the integer cast gives the same number. -/
def scalarText (x : Scalar) : String :=
  x.text ++ (if x.integral then ".0" else "")

mutual
/-- The stream operator `operator <<(std::ostringstream&, const nnef::Value&)`
of the generator.  It is the one called where the left operand is the string
stream itself: in its own element loop, and in the element loop of
`param_description` for two or more elements. -/
def render : Value → String
  | .none => "None"
  | .string s => s
  | .identifier s => s
  | .logical b => if b then "true" else "false"
  | .integer v => decimal v
  | .scalar x => scalarText x
  | .array items => "(" ++ renderItems 0 items ++ ")"
  | .tuple items => "(" ++ renderItems 0 items ++ ")"
/-- The element loop of the `Array`/`Tuple` case, from index `i` on. -/
def renderItems : Nat → List Value → String
  | _, [] => ""
  | i, v :: vs => (if i ≠ 0 then ", " else "") ++ render v ++ renderItems (i + 1) vs
end

/-! ## Attribute formatter -/

/-- The loop `for (i = 0; i < rank; ++i) { if (i) os << ", "; os << "0"; }`,
from index `i` with `n` rounds left. -/
def zeroLoop : Nat → Nat → String
  | _, 0 => ""
  | i, n + 1 => (if i ≠ 0 then ", " else "") ++ "0" ++ zeroLoop (i + 1) n

/-- The empty `Array`/`Tuple` case of `param_description`: the first input's
tensor is looked up before the attribute name is examined; `rank` is a
`size_t`, so `rank -= 2` is taken modulo `2^64`. -/
def emptyDescription (graph : Graph) (op : Operation) (attr : String) : Option String := do
  let input ← op.inputs.head?
  let id ← input.2.identifier?
  let tensor ← graph.tensorsAt id
  let rank := tensor.shape.length
  let rank := if op.name = "conv" then (rank + 2 ^ 64 - 2) % 2 ^ 64 else rank
  if attr = "padding" then pure "Padding_Auto"
  else if attr = "stride" then pure "Default_Stride"
  else if attr = "dilation" then pure "Default_Dilation"
  else pure ("(" ++ zeroLoop 0 rank ++ ")")

/-- The one-element case: `value[0]`, read as an integer and incremented in
`integer_t` for `"axes"`.  For any other attribute the element is inserted
after the text `"(1 => "`, into the `std::ostream&` that insertion returns:
the inserter of the header is the one called there, not the operator of this
file, which takes a `std::ostringstream&`. -/
def singleDescription (hdr : Header) (attr : String) (v : Value) : Option String :=
  if attr = "axes" then do
    let n ← v.integer?
    pure ("(1 => " ++ decimal (wrapInteger hdr.integerBits (n + 1)) ++ ")")
  else pure ("(1 => " ++ hdr.print v ++ ")")

/-- The element loop of the case of two or more elements, from index `i` on.
The statement `os << value[i]` has the `std::ostringstream` itself on the left,
so that the operator of this file is called. -/
def itemsDescription (hdr : Header) (attr : String) : Nat → List Value → Option String
  | _, [] => pure ""
  | i, v :: vs => do
    let e ← if attr = "axes" then
              (v.integer?).map (fun n => decimal (wrapInteger hdr.integerBits (n + 1)))
            else pure (render v)
    let rest ← itemsDescription hdr attr (i + 1) vs
    pure ((if i ≠ 0 then ", " else "") ++ e ++ rest)

/-- The `Array`/`Tuple` case of `param_description`, by `value.size()`. -/
def arrayDescription (hdr : Header) (graph : Graph) (op : Operation) (attr : String)
    (items : List Value) : Option String :=
  match items with
  | [] => emptyDescription graph op attr
  | [v] => singleDescription hdr attr v
  | _ => do
    let body ← itemsDescription hdr attr 0 items
    pure ("(" ++ body ++ ")")

def param_description (hdr : Header) (graph : Graph) (op : Operation) (attr : String)
    (value : Value) : Option String :=
  if attr = "border" then do
    let s ← value.string?
    pure (attr ++ " => Border_Mode_" ++ s)
  else do
    let os ← match value with
      | .none => pure "None"
      | .string s => pure s
      | .identifier s => pure s
      | .logical b => pure (if b then "true" else "false")
      | .integer v =>
        if attr = "axis" ∨ attr = "axis_start" then
          pure (decimal (wrapInteger hdr.integerBits (v + 1)))
        else pure (decimal v)
      | .scalar x => pure (scalarText x)
      | .array items => arrayDescription hdr graph op attr items
      | .tuple items => arrayDescription hdr graph op attr items
    pure (attr ++ " => " ++ os)

/-! ## Operation emitter -/

/-- The order of `std::string` on character sequences: lexicographic, a
proper prefix first. -/
def charsLt : List Char → List Char → Bool
  | [], [] => false
  | [], _ :: _ => true
  | _ :: _, [] => false
  | a :: as, b :: bs => if a < b then true else if b < a then false else charsLt as bs

/-- The comparison `std::less<std::string>` of the type registries. -/
def stringLt (a b : String) : Bool :=
  charsLt a.data b.data

/-- Insertion into a `std::set<std::string>`, kept as the ascending list of its
members. -/
def setInsert (x : String) : List String → List String
  | [] => [x]
  | y :: ys =>
    if stringLt x y then x :: y :: ys
    else if x = y then y :: ys
    else y :: setInsert x ys

/-- The state of `main` during generation: the file-scope `op_list`, the four
text buffers and the four type registries. -/
structure Gen where
  op_list : List String
  declarations : String
  load : String
  fwd_decl : String
  fwd_text : String
  external_types : List String
  variable_types : List String
  output_types : List String
  all_types : List String
  deriving DecidableEq

/-- One round of the first loop of `main`: the name is pushed unless
`std::find` meets it in `op_list`. -/
def collectName (op_list : List String) (operation : Operation) : List String :=
  if operation.name ∈ op_list then op_list else op_list ++ [operation.name]

/-- The first pass of `main` over `graph.operations`, from the empty `op_list`,
followed by the push of the reserved name. -/
def buildOpList (graph : Graph) : List String :=
  graph.operations.foldl collectName [] ++ ["local_response_normalization"]

/-- One round of the output loop of an `"external"` operation; the value of the
`shape` attribute is fetched and not used, and no declaration is written. -/
def externalOutput (graph : Graph) (operation : Operation) (s : Gen)
    (output : String × Value) : Option Gen := do
  let id ← output.2.identifier?
  let tensor ← graph.tensorsAt id
  pure { s with
    load := s.load ++ ("    " ++ operation.name ++ " (\"" ++ tensor.name ++ "\", "
      ++ tensor_id s.op_list tensor.name ++ ");") ++ "\n"
    external_types := setInsert (tensor_typename tensor) s.external_types
    all_types := setInsert (tensor_typename tensor) s.all_types }

/-- One round of the output loop of a `"variable"` operation; the value of the
`shape` attribute is fetched and not used. -/
def variableOutput (graph : Graph) (operation : Operation) (s : Gen)
    (output : String × Value) : Option Gen := do
  let id ← output.2.identifier?
  let tensor ← graph.tensorsAt id
  let label := operation.attribsGet "label"
  let text ← label.string?
  pure { s with
    declarations := s.declarations ++ "    " ++ tensor_declaration s.op_list tensor ++ "\n"
    load := s.load ++ ("    " ++ operation.name ++ " (\"" ++ text ++ "\", "
      ++ tensor_id s.op_list tensor.name ++ ");") ++ "\n"
    variable_types := setInsert (tensor_typename tensor) s.variable_types
    all_types := setInsert (tensor_typename tensor) s.all_types }

/-- The fragment of an input outside the add/mul case.  A value that is not an
identifier is inserted after the text `" => "`, into a `std::ostream&`: it is
written by the inserter of the header. -/
def inputFragment (hdr : Header) (op_list : List String) (input : String × Value) : String :=
  match input.2 with
  | .identifier id => input.1 ++ " => " ++ tensor_id op_list id
  | v => input.1 ++ " => " ++ hdr.print v

/-- The input loop of a call statement, at index `i` with the inputs from `i`
on: the text it appends and the value of `i` when it ends.  In the add/mul case
the first value follows the text `" => "` and is written by the inserter of the
header as well. -/
def inputLoop (hdr : Header) (op_list : List String) (operation : Operation) :
    Nat → List (String × Value) → Option (String × Nat)
  | i, [] => pure ("", i)
  | i, input :: rest =>
    match rest with
    | input1 :: rest1 =>
      if (operation.name = "add" ∨ operation.name = "mul") ∧ i = 0
          ∧ input.2.kind ≠ Kind.Identifier ∧ 2 ≤ operation.inputs.length
          ∧ input1.2.kind = Kind.Identifier then do
        let id1 ← input1.2.identifier?
        let r ← inputLoop hdr op_list operation (i + 1 + 1) rest1
        pure ((if i ≠ 0 then ", " else "") ++ input.1 ++ " => " ++ tensor_id op_list id1
          ++ ", " ++ input1.1 ++ " => " ++ hdr.print input.2 ++ r.1, r.2)
      else do
        let r ← inputLoop hdr op_list operation (i + 1) (input1 :: rest1)
        pure ((if i ≠ 0 then ", " else "") ++ inputFragment hdr op_list input ++ r.1, r.2)
    | [] => pure ((if i ≠ 0 then ", " else "") ++ inputFragment hdr op_list input, i + 1)

/-- One round of the attribute loop: `if (i++) fwd_text << ", "`, then the
formatted attribute. -/
def attribStep (hdr : Header) (graph : Graph) (operation : Operation) (acc : String × Nat)
    (attr : String × Value) : Option (String × Nat) := do
  let d ← param_description hdr graph operation attr.1 attr.2
  pure (acc.1 ++ (if acc.2 ≠ 0 then ", " else "") ++ d, acc.2 + 1)

/-- One round of the output loop of a call statement; `i` is the running
fragment counter. -/
def callOutput (graph : Graph) (acc : Gen × Nat) (output : String × Value) :
    Option (Gen × Nat) := do
  let s := acc.1
  let id ← output.2.identifier?
  let tensor ← graph.tensorsAt id
  let sep := if acc.2 ≠ 0 then ", " else ""
  let s1 : Gen :=
    if id ∈ graph.outputs then
      { s with output_types := setInsert (tensor_typename tensor) s.output_types }
    else
      { s with fwd_decl := s.fwd_decl ++ "        " ++ tensor_declaration s.op_list tensor ++ "\n" }
  pure ({ s1 with
    fwd_text := s.fwd_text ++ sep ++ output.1 ++ " => " ++ tensor_id s.op_list id
    all_types := setInsert (tensor_typename tensor) s.all_types }, acc.2 + 1)

/-- The attribute loop of a call statement, skipped for `"reshape"`. -/
def attribLoop (hdr : Header) (graph : Graph) (operation : Operation) (acc : String × Nat) :
    Option (String × Nat) :=
  if operation.name ≠ "reshape" then
    operation.attribs.foldlM (attribStep hdr graph operation) acc
  else pure acc

/-- The last branch of the emission loop: one call statement. -/
def emitCall (hdr : Header) (graph : Graph) (s : Gen) (operation : Operation) :
    Option Gen := do
  let ins ← inputLoop hdr s.op_list operation 0 operation.inputs
  let att ← attribLoop hdr graph operation
    (s.fwd_text ++ "        " ++ operation.name ++ " (" ++ ins.1, ins.2)
  let out ← operation.outputs.foldlM (callOutput graph) ({ s with fwd_text := att.1 }, att.2)
  pure { out.1 with fwd_text := out.1.fwd_text ++ ");" ++ "\n" }

/-- The body of the emission loop of `main` for one operation. -/
def emitOperation (hdr : Header) (graph : Graph) (s : Gen) (operation : Operation) :
    Option Gen :=
  if operation.name = "external" then
    operation.outputs.foldlM (externalOutput graph operation) s
  else if operation.name = "variable" then
    operation.outputs.foldlM (variableOutput graph operation) s
  else emitCall hdr graph s operation

/-- The state before the emission loop: `op_list` filled by the first pass,
all buffers and registries empty. -/
def initGen (graph : Graph) : Gen :=
  { op_list := buildOpList graph, declarations := "", load := "", fwd_decl := "",
    fwd_text := "", external_types := [], variable_types := [], output_types := [],
    all_types := [] }

/-- The emission loop of `main`. -/
def emitAll (hdr : Header) (graph : Graph) : Option Gen :=
  graph.operations.foldlM (emitOperation hdr graph) (initGen graph)

/-! ## Program assembler -/

/-- A loop of `main` printing one declaration per listed tensor identifier. -/
def declarationLines (graph : Graph) (op_list : List String) (ids : List String) :
    Option String :=
  ids.foldlM (fun acc id => do
    let tensor ← graph.tensorsAt id
    pure (acc ++ "    " ++ tensor_declaration op_list tensor ++ "\n")) ""

/-- The `.ads` section printed by `main`. -/
def adsUnit (graph : Graph) (s : Gen) : Option String := do
  let ins ← declarationLines graph s.op_list graph.inputs
  let outs ← declarationLines graph s.op_list graph.outputs
  pure ("-- " ++ graph.name ++ ".ads" ++ "\n"
    ++ "with Generic_Real_Arrays;" ++ "\n"
    ++ "with Generic_Real_Arrays.Operators;" ++ "\n"
    ++ "package " ++ graph.name ++ " is" ++ "\n"
    ++ "    pragma Preelaborate;" ++ "\n"
    ++ "    package Real_Arrays is new Generic_Real_Arrays(Real => Float);" ++ "\n"
    ++ "    package Operators is new Real_Arrays.Operators;" ++ "\n"
    ++ "    use Real_Arrays;" ++ "\n"
    ++ "    use Operators;" ++ "\n"
    ++ ins ++ outs ++ s.declarations ++ s.fwd_decl
    ++ "    procedure Forward;" ++ "\n"
    ++ "end " ++ graph.name ++ ";" ++ "\n")

/-- The lines of the `.adb` section before the statements of `Forward`. -/
def adbHead (graph : Graph) : String :=
  "-- " ++ graph.name ++ ".adb" ++ "\n"
    ++ "package body " ++ graph.name ++ " is" ++ "\n"
    ++ "    procedure Forward is" ++ "\n"
    ++ "    begin" ++ "\n"

/-- The lines of the `.adb` section after the statements of `Forward`. -/
def adbTail (graph : Graph) : String :=
  "    end Forward;" ++ "\n" ++ "end " ++ graph.name ++ ";" ++ "\n"

/-- The `.adb` section printed by `main`. -/
def adbUnit (graph : Graph) (s : Gen) : String :=
  adbHead graph ++ s.fwd_text ++ adbTail graph

/-- The four lines of one stub subprogram of the runner. -/
def stub (kind : String) (params : String) : String :=
  "    procedure " ++ kind ++ " (" ++ params ++ ") is" ++ "\n"
    ++ "    begin" ++ "\n"
    ++ "        null;" ++ "\n"
    ++ "    end " ++ kind ++ ";" ++ "\n"

/-- The three stub loops of the runner, over the registries in set order. -/
def runStubs (s : Gen) : String :=
  String.join (s.external_types.map
      (fun type_name => stub "External" ("Var_Name: String; Tensor: out " ++ type_name)))
    ++ String.join (s.variable_types.map
      (fun type_name => stub "Variable" ("Var_Name: String; Tensor: out " ++ type_name)))
    ++ String.join (s.output_types.map
      (fun type_name => stub "Output" ("Tensor: " ++ type_name ++ "; Var_Name: String")))

/-- The `Output` calls of the driver sequence, one per graph output. -/
def outputCalls (graph : Graph) (op_list : List String) : Option String :=
  graph.outputs.foldlM (fun acc output => do
    let tensor ← graph.tensorsAt output
    pure (acc ++ "    Output (" ++ tensor_id op_list tensor.name ++ ", \"" ++ tensor.name
      ++ "\");" ++ "\n")) ""

/-- The lines of the runner from `begin` to `Forward;`: the load buffer, then
the call of the procedure. -/
def runDriver (s : Gen) : String :=
  "begin" ++ "\n" ++ s.load ++ "    Forward;" ++ "\n"

/-- The `_run.adb` section printed by `main`. -/
def runUnit (graph : Graph) (s : Gen) : Option String := do
  let calls ← outputCalls graph s.op_list
  pure ("-- " ++ graph.name ++ "_run.adb" ++ "\n"
    ++ "with " ++ graph.name ++ "; use " ++ graph.name ++ ";" ++ "\n"
    ++ "use " ++ graph.name ++ ".Real_Arrays;" ++ "\n"
    ++ "procedure " ++ graph.name ++ "_Run is" ++ "\n"
    ++ runStubs s ++ runDriver s ++ calls
    ++ "end " ++ graph.name ++ "_Run;" ++ "\n")

/-- The text `main` prints for a loaded, shape-inferred graph, `none` when an
exception ends the run. -/
def generate (hdr : Header) (graph : Graph) : Option String := do
  let s ← emitAll hdr graph
  let ads ← adsUnit graph s
  let run ← runUnit graph s
  pure (ads ++ adbUnit graph s ++ run)

/-! ## Statements of one operation -/

/-- The state with the given `op_list`, all buffers and registries empty. -/
def freshGen (op_list : List String) : Gen :=
  { op_list := op_list, declarations := "", load := "", fwd_decl := "",
    fwd_text := "", external_types := [], variable_types := [], output_types := [],
    all_types := [] }

/-- The call statement of an operation: what `emitCall` writes to the call
buffer when the buffer is empty before. -/
def callStatement (hdr : Header) (graph : Graph) (op_list : List String)
    (operation : Operation) : Option String :=
  (emitCall hdr graph (freshGen op_list) operation).map (fun s => s.fwd_text)

/-- The load statements of an operation: what `emitOperation` writes to the
load buffer when the buffer is empty before. -/
def loadStatements (hdr : Header) (graph : Graph) (op_list : List String)
    (operation : Operation) : Option String :=
  (emitOperation hdr graph (freshGen op_list) operation).map (fun s => s.load)

/-- The operations of the first two branches of the emission loop. -/
def isLoadOp (operation : Operation) : Bool :=
  operation.name = "external" || operation.name = "variable"

/-! ## Specification-side definitions -/

/-- The element-family map of section 4.1 in the specification's words. -/
def specFamily (d : String) : String :=
  match d with
  | "scalar" => "Real"
  | "integer" => "Integer"
  | "logical" => "Boolean"
  | other => other

/-- The rank map of section 4.1 in the specification's words. -/
def specRankName (r : Nat) : String :=
  if r = 1 then "Vector"
  else if r = 2 then "Matrix"
  else if r = 3 then "Tensor_3D"
  else if r = 4 then "Tensor_4D"
  else "Tensor"

/-- The tuple text of section 4.4 in the specification's words: a single
element as `(1 => e)`, otherwise the elements joined by `", "` between
parentheses. -/
def specTuple (es : List String) : String :=
  match es with
  | [e] => "(1 => " ++ e ++ ")"
  | _ => "(" ++ String.intercalate ", " es ++ ")"

/-! ## Option loop of the driver -/

/-- The file system seen by `read_file`: the content of a file by name, nothing
for a name that cannot be opened. -/
abbrev Files := String → Option String

/-- The function `read_file`: the content of the file, or the exception
`runtime_error("file not found: " + fn)`. -/
def read_file (files : Files) (fn : String) : Except String String :=
  match files fn with
  | some text => .ok text
  | Option.none => .error ("file not found: " ++ fn)

/-- What the option loop of `main` leaves behind: the `stdlib` text handed to
`nnef::load_graph` and the text written to `std::cerr`. -/
structure Options where
  stdlib : String
  cerr : String
  deriving DecidableEq

/-- One round of the option loop of `nnef2ada.cpp` at index `i`.  In the
`--stdlib` branch the test `i+1 >= argc && *argv[i+1] != '-'` reads through the
null pointer `argv[argc]` when `i + 1 = argc`, which has no defined result;
otherwise it is false and the `try` block calls `read_file(argv[i])`. -/
def optionStep (files : Files) (argv : List String) (st : Options) (i : Nat) :
    Option Options := do
  let arg ← argv[i]?
  if arg = "--stdlib" then
    if argv.length ≤ i + 1 then Option.none
    else
      match read_file files arg with
      | .ok text => pure { st with stdlib := text }
      | .error what => pure { st with cerr := st.cerr ++ what ++ "\n" }
  else
    pure { st with cerr := st.cerr ++ "Unrecognized option: " ++ arg ++ "; ignoring" ++ "\n" }

/-- The option loop of `nnef2ada.cpp`: `for (i = 2; i < argc; ++i)`, from the
empty `stdlib`. -/
def optionLoop (files : Files) (argv : List String) : Option Options :=
  (List.range' 2 (argv.length - 2)).foldlM (optionStep files argv)
    { stdlib := "", cerr := "" }

/-! ## Specification-side predicates -/

/-- Text of the form digits `.0`: one or more decimal digits followed by a
point and a zero. -/
def digitsDotZero (text : String) : Bool :=
  match text.data.reverse with
  | '0' :: '.' :: d :: ds => (d :: ds).all Char.isDigit
  | _ => false

/-- The values of claim C18: every value that is not an array or tuple, and
the arrays and tuples of at least two elements. -/
def Value.generic : Value → Bool
  | .array items => decide (2 ≤ items.length)
  | .tuple items => decide (2 ≤ items.length)
  | _ => true

/-! ## Specification-side descriptions of the printed units -/

/-- The tensors bound to a list of outputs: for every output that is the
identifier of a tensor of the graph, that tensor, in order. -/
def outputTensors (graph : Graph) (outputs : List (String × Value)) : List Tensor :=
  outputs.filterMap (fun o => (o.2.identifier?).bind graph.tensorsAt)

/-- The outputs whose identifier is not in `graph.outputs`. -/
def notGraphOutput (graph : Graph) (o : String × Value) : Bool :=
  match o.2.identifier? with
  | some id => decide (id ∉ graph.outputs)
  | Option.none => false

/-- The output tensors of the `variable` operations, in operation order. -/
def variableTensors (graph : Graph) : List Tensor :=
  ((graph.operations.filter (fun op => op.name = "variable")).map
    (fun op => outputTensors graph op.outputs)).flatten

/-- The output tensors, other than graph outputs, of the operations that are
neither `external` nor `variable`, in operation order. -/
def forwardTensors (graph : Graph) : List Tensor :=
  ((graph.operations.filter (fun op => !isLoadOp op)).map
    (fun op => outputTensors graph (op.outputs.filter (notGraphOutput graph)))).flatten

/-- One printed declaration line: the indentation, the declaration, the end of
line. -/
def declarationLine (indent : String) (op_list : List String) (t : Tensor) : String :=
  indent ++ tensor_declaration op_list t ++ "\n"

/-- The lines of the `.ads` section before the tensor declarations. -/
def adsHead (graph : Graph) : String :=
  "-- " ++ graph.name ++ ".ads" ++ "\n"
    ++ "with Generic_Real_Arrays;" ++ "\n"
    ++ "with Generic_Real_Arrays.Operators;" ++ "\n"
    ++ "package " ++ graph.name ++ " is" ++ "\n"
    ++ "    pragma Preelaborate;" ++ "\n"
    ++ "    package Real_Arrays is new Generic_Real_Arrays(Real => Float);" ++ "\n"
    ++ "    package Operators is new Real_Arrays.Operators;" ++ "\n"
    ++ "    use Real_Arrays;" ++ "\n"
    ++ "    use Operators;" ++ "\n"

/-- The lines of the `.ads` section after the tensor declarations. -/
def adsTail (graph : Graph) : String :=
  "    procedure Forward;" ++ "\n" ++ "end " ++ graph.name ++ ";" ++ "\n"

/-- The outputs whose identifier is in `graph.outputs`. -/
def isGraphOutput (graph : Graph) (o : String × Value) : Bool :=
  match o.2.identifier? with
  | some id => decide (id ∈ graph.outputs)
  | Option.none => false

/-- The mapped type name of the tensor bound to an output. -/
def outputTypeName (graph : Graph) (o : String × Value) : Option String :=
  ((o.2.identifier?).bind graph.tensorsAt).map tensor_typename

/-- The output tensors of the `external` operations, in operation order. -/
def externalTensors (graph : Graph) : List Tensor :=
  ((graph.operations.filter (fun op => op.name = "external")).map
    (fun op => outputTensors graph op.outputs)).flatten

/-- The operation outputs that are graph outputs: the tensors bound to the
outputs, of any operation, whose identifier is in `graph.outputs`. -/
def graphOutputTensors (graph : Graph) : List Tensor :=
  (graph.operations.map
    (fun op => outputTensors graph (op.outputs.filter (isGraphOutput graph)))).flatten

/-- The input fragments of a call statement in the specification's words: one
fragment per input, in input order; for an `add` or `mul` whose first input is
not an identifier and whose second input is one, the two values are exchanged
under the two parameter names.  The text of a value that is not an identifier
is the one the inserter of the header writes. -/
def inputFragments (hdr : Header) (op_list : List String) (operation : Operation) :
    List String :=
  match operation.inputs with
  | input :: (pB, Value.identifier id) :: rest =>
    if (operation.name = "add" ∨ operation.name = "mul")
        ∧ input.2.kind ≠ Kind.Identifier then
      (input.1 ++ " => " ++ tensor_id op_list id) :: (pB ++ " => " ++ hdr.print input.2)
        :: rest.map (inputFragment hdr op_list)
    else operation.inputs.map (inputFragment hdr op_list)
  | _ => operation.inputs.map (inputFragment hdr op_list)

/-- The numbers that are values of `integer_t`, a signed type of `bits` bits. -/
def inIntegerRange (bits : Nat) (x : Int) : Prop :=
  0 < bits ∧ -(2 ^ (bits - 1)) ≤ x ∧ x < 2 ^ (bits - 1)

instance (bits : Nat) (x : Int) : Decidable (inIntegerRange bits x) :=
  inferInstanceAs (Decidable (0 < bits ∧ -((2 : Int) ^ (bits - 1)) ≤ x ∧ x < 2 ^ (bits - 1)))

/-! ## Example inputs -/

/-- A graph with a single tensor `x` of rank 1. -/
def rankOneGraph : Graph :=
  { name := "net", inputs := ["x"], outputs := [],
    tensors := [("x", { name := "x", dtype := "scalar", shape := [5] })],
    operations := [] }

/-- A `conv` operation whose first input is the tensor `x`. -/
def convOnX : Operation :=
  { name := "conv", inputs := [("input", .identifier "x")], outputs := [], attribs := [] }

/-- A graph without tensors. -/
def emptyGraph : Graph :=
  { name := "net", inputs := [], outputs := [], tensors := [], operations := [] }

/-- A graph with a tensor `x` of rank 4 and a tensor `y` of rank 2. -/
def sampleGraph : Graph :=
  { name := "net", inputs := ["x"], outputs := ["y"],
    tensors := [("x", { name := "x", dtype := "scalar", shape := [1, 3, 8, 8] }),
                ("y", { name := "y", dtype := "scalar", shape := [2, 3] })],
    operations := [] }

/-- An operation whose first input names a tensor `x`, with no other argument. -/
def poolOnX : Operation :=
  { name := "max_pool", inputs := [("input", .identifier "x")], outputs := [],
    attribs := [] }

/-- A graph with two tensors `t` and `s` of rank 2. -/
def swapGraph : Graph :=
  { name := "net", inputs := ["t"], outputs := ["s"],
    tensors := [("t", { name := "t", dtype := "scalar", shape := [2, 3] }),
                ("s", { name := "s", dtype := "scalar", shape := [2, 3] })],
    operations := [] }

/-- An `add` whose first input is the literal 2 under the parameter `x` and
whose second input is the tensor `t` under the parameter `y`. -/
def addLiteralFirst : Operation :=
  { name := "add", inputs := [("x", .integer 2), ("y", .identifier "t")],
    outputs := [("z", .identifier "s")], attribs := [] }

/-- An `add` of the tensor `t` to itself, producing the tensor `s`. -/
def addTensors : Operation :=
  { name := "add", inputs := [("x", .identifier "t"), ("y", .identifier "t")],
    outputs := [("z", .identifier "s")], attribs := [] }

/-- A `variable` whose `shape` attribute is `[3, 4]`, labelled `w1`. -/
def variableW : Operation :=
  { name := "variable", inputs := [], outputs := [("output", .identifier "w")],
    attribs := [("shape", .array [.integer 3, .integer 4]), ("label", .string "w1")] }

/-- A graph whose tensor `w` has the stored shape `[5]`, produced by
`variableW`. -/
def variableGraph : Graph :=
  { name := "net", inputs := [], outputs := [],
    tensors := [("w", { name := "w", dtype := "scalar", shape := [5] })],
    operations := [variableW] }

/-- An `external` producing the tensor `x`. -/
def externalX : Operation :=
  { name := "external", inputs := [], outputs := [("output", .identifier "x")],
    attribs := [("shape", .array [.integer 2, .integer 3])] }

/-- A graph whose only operation is `externalX`. -/
def externalGraph : Graph :=
  { name := "net", inputs := ["x"], outputs := [],
    tensors := [("x", { name := "x", dtype := "scalar", shape := [2, 3] })],
    operations := [externalX] }

/-- A graph with an `external`, a `variable` and an `add` with the literal
first. -/
def mixedGraph : Graph :=
  { name := "net", inputs := ["t"], outputs := ["s"],
    tensors := [("t", { name := "t", dtype := "scalar", shape := [2, 3] }),
                ("s", { name := "s", dtype := "scalar", shape := [2, 3] }),
                ("w", { name := "w", dtype := "scalar", shape := [5] })],
    operations := [{ externalX with outputs := [("output", .identifier "t")] },
                   variableW, addTensors] }

/-- The state of `main` after the emission loop on `mixedGraph`. -/
def mixedGen : Gen :=
  { op_list := ["external", "variable", "add", "local_response_normalization"],
    declarations := "    w: Real_Vector (1..5);\n",
    load := "    external (\"t\", t);\n    variable (\"w1\", w);\n",
    fwd_decl := "",
    fwd_text := "        add (x => t, y => t, z => s);\n",
    external_types := ["Real_Matrix"],
    variable_types := ["Real_Vector"],
    output_types := ["Real_Matrix"],
    all_types := ["Real_Matrix", "Real_Vector"] }

/-- The scalar 2.0: the stream writes `2`, and the integer cast gives the same
number. -/
def scalarTwo : Scalar := { text := "2", integral := true }

/-- The scalar 2.5: the stream writes `2.5`, and the integer cast changes the
number. -/
def scalarTwoAndHalf : Scalar := { text := "2.5", integral := false }

/-- The scalar 1000000.0: the stream, at its default precision of six
significant digits, writes `1e+06`, and the integer cast gives the same
number. -/
def scalarMillion : Scalar := { text := "1e+06", integral := true }

/-- A file system with the single file `lib.nnef`. -/
def oneLibrary : Files :=
  fun fn => if fn = "lib.nnef" then some "fragment f() -> ()" else Option.none

/-- A graph with an `external`, a `variable`, an `add` producing the
intermediate tensor `u` and a `relu` producing the graph output `s`. -/
def chainGraph : Graph :=
  { name := "net", inputs := ["t"], outputs := ["s"],
    tensors := [("t", { name := "t", dtype := "scalar", shape := [2, 3] }),
                ("s", { name := "s", dtype := "scalar", shape := [2, 3] }),
                ("u", { name := "u", dtype := "scalar", shape := [2, 3] }),
                ("w", { name := "w", dtype := "scalar", shape := [5] })],
    operations := [{ externalX with outputs := [("output", .identifier "t")] },
                   variableW,
                   { name := "add",
                     inputs := [("x", .identifier "t"), ("y", .identifier "w")],
                     outputs := [("z", .identifier "u")], attribs := [] },
                   { name := "relu", inputs := [("x", .identifier "u")],
                     outputs := [("y", .identifier "s")], attribs := [] }] }

/-- The state of `main` after the emission loop on `chainGraph`. -/
def chainGen : Gen :=
  { op_list := ["external", "variable", "add", "relu", "local_response_normalization"],
    declarations := "    w: Real_Vector (1..5);\n",
    load := "    external (\"t\", t);\n    variable (\"w1\", w);\n",
    fwd_decl := "        u: Real_Matrix (1..2, 1..3);\n",
    fwd_text := "        add (x => t, y => w, z => u);\n        relu (x => u, y => s);\n",
    external_types := ["Real_Matrix"],
    variable_types := ["Real_Vector"],
    output_types := ["Real_Matrix"],
    all_types := ["Real_Matrix", "Real_Vector"] }

/-- The tensor declarations of the `.ads` section printed for `chainGraph`. -/
def chainDeclarations : String :=
  "    t: Real_Matrix (1..2, 1..3);\n    s: Real_Matrix (1..2, 1..3);\n"
    ++ "    w: Real_Vector (1..5);\n        u: Real_Matrix (1..2, 1..3);\n"

/-- A graph whose output `w` is produced directly by a `variable`. -/
def variableOutputGraph : Graph :=
  { name := "net", inputs := [], outputs := ["w"],
    tensors := [("w", { name := "w", dtype := "scalar", shape := [5] })],
    operations := [variableW] }

/-- A graph whose tensor `x` is both a graph input and a graph output, produced
by an `external`. -/
def passThroughGraph : Graph :=
  { name := "net", inputs := ["x"], outputs := ["x"],
    tensors := [("x", { name := "x", dtype := "scalar", shape := [2, 3] })],
    operations := [externalX] }

/-- A `max_pool` on the tensor `x` with a `size` and a `border` attribute,
producing the tensor `y`. -/
def poolWithSize : Operation :=
  { name := "max_pool", inputs := [("input", .identifier "x")],
    outputs := [("output", .identifier "y")],
    attribs := [("size", .array [.integer 1, .integer 1, .integer 2, .integer 2]),
                ("border", .string "ignore")] }

/-- A header with `integer_t` of 32 bits.  Its inserter is a stand-in that writes
a question mark for every value. -/
def sampleHeader : Header :=
  { integerBits := 32, print := fun _ => "?" }

/-! ## Theorems -/

variable {hdr : Header}

/-! ### Helper lemmas on text -/

theorem join_nil : String.join [] = "" := rfl

theorem join_cons (a : String) (l : List String) :
    String.join (a :: l) = a ++ String.join l := by
  apply String.ext
  simp [String.data_join]

theorem join_append (l₁ l₂ : List String) :
    String.join (l₁ ++ l₂) = String.join l₁ ++ String.join l₂ := by
  induction l₁ with
  | nil => simp [join_nil]
  | cons a l ih => simp [join_cons, ih, String.append_assoc]

theorem intercalate_go (sep : String) (l : List String) (acc : String) :
    String.intercalate.go acc sep l = acc ++ String.join (l.map (fun x => sep ++ x)) := by
  induction l generalizing acc with
  | nil => simp [String.intercalate.go, join_nil]
  | cons a l ih =>
    simp [String.intercalate.go, ih, join_cons, String.append_assoc]

theorem intercalate_cons (sep a : String) (l : List String) :
    String.intercalate sep (a :: l) = a ++ String.join (l.map (fun x => sep ++ x)) := by
  simp [String.intercalate, intercalate_go]

/-- A separated loop entered at a nonzero index writes the separator before
every element. -/
theorem sepLoop_succ {α : Type} (f : α → String) (i : Nat) (l : List α) :
    sepLoop f (i + 1) l = String.join (l.map (fun x => ", " ++ f x)) := by
  induction l generalizing i with
  | nil => simp [sepLoop, join_nil]
  | cons a l ih => simp [sepLoop, ih, join_cons, String.append_assoc]

/-- A separated loop from index zero writes the elements joined by `", "`. -/
theorem sepLoop_zero {α : Type} (f : α → String) (l : List α) :
    sepLoop f 0 l = String.intercalate ", " (l.map f) := by
  cases l with
  | nil => simp [sepLoop, String.intercalate]
  | cons a l => simp [sepLoop, sepLoop_succ, intercalate_cons, Function.comp_def]

theorem renderItems_eq_sepLoop (i : Nat) (l : List Value) :
    renderItems i l = sepLoop render i l := by
  induction l generalizing i with
  | nil => simp [renderItems, sepLoop]
  | cons a l ih => simp [renderItems, sepLoop, ih]

theorem renderItems_zero (l : List Value) :
    renderItems 0 l = String.intercalate ", " (l.map render) := by
  rw [renderItems_eq_sepLoop, sepLoop_zero]

/-- The claim C9: for every tensor, whatever its dtype string and its rank,
`tensor_typename` is the family name of the dtype, an underscore and the rank
name, with the family and rank maps of section 4.1. -/
theorem C9_tensor_typename_total (tensor : Tensor) :
    tensor_typename tensor
      = specFamily tensor.dtype ++ "_" ++ specRankName tensor.shape.length := by
  have hF : ∀ d, tensor_type d = specFamily d := by
    intro d
    by_cases h1 : d = "scalar"
    · subst h1; rfl
    by_cases h2 : d = "integer"
    · subst h2; rfl
    by_cases h3 : d = "logical"
    · subst h3; rfl
    simp only [tensor_type, specFamily, h1, h2, h3, if_false]
  have hR : ∀ r, tensor_rank r = specRankName r := by
    intro r
    unfold tensor_rank specRankName
    split <;> simp_all
  simp [tensor_typename, hF, hR]

/-- The claim C10: the value renderer is a total function and writes `None`
for the empty value, the raw text of a string or identifier, `true`/`false` for
a logical, the decimal text of an integer, and for an array or tuple the
renderings of its elements joined by `", "` between parentheses, `()` when it is
empty. -/
theorem C10_render_equations :
    render Value.none = "None"
    ∧ (∀ s, render (.string s) = s)
    ∧ (∀ s, render (.identifier s) = s)
    ∧ render (.logical true) = "true" ∧ render (.logical false) = "false"
    ∧ (∀ v, render (.integer v) = decimal v)
    ∧ (∀ items, render (.array items)
        = "(" ++ String.intercalate ", " (items.map render) ++ ")")
    ∧ (∀ items, render (.tuple items)
        = "(" ++ String.intercalate ", " (items.map render) ++ ")")
    ∧ render (.array []) = "()" ∧ render (.tuple []) = "()" := by
  refine ⟨by simp [render], fun s => by simp [render], fun s => by simp [render],
    by simp [render], by simp [render], fun v => by simp [render], ?_, ?_, by decide, by decide⟩
  · intro items
    simp [render, renderItems_zero]
  · intro items
    simp [render, renderItems_zero]

/-! ### Helper lemmas on the loops of `main` -/

/-- A relation kept by every round of a loop that may throw is kept by the
whole loop. -/
theorem foldlM_invariant {σ α : Type} (f : σ → α → Option σ) (R : σ → σ → Prop)
    (hrefl : ∀ s, R s s) (htrans : ∀ a b c, R a b → R b c → R a c)
    (hstep : ∀ s a s', f s a = some s' → R s s') :
    ∀ (l : List α) (s s' : σ), l.foldlM f s = some s' → R s s' := by
  intro l
  induction l with
  | nil =>
    intro s s' h
    simp at h
    subst h
    exact hrefl s
  | cons a l ih =>
    intro s s' h
    simp only [List.foldlM_cons, Option.bind_eq_bind, Option.bind_eq_some] at h
    obtain ⟨m, hm, hrest⟩ := h
    exact htrans _ _ _ (hstep s a m hm) (ih m s' hrest)

/-- Two runs of a loop from related states stay related, and the second run
completes whenever the first does. -/
theorem foldlM_lockstep {σ α : Type} (f : σ → α → Option σ) (R : σ → σ → Prop)
    (hstep : ∀ s e a s', R s e → f s a = some s' → ∃ e', f e a = some e' ∧ R s' e') :
    ∀ (l : List α) (s e s' : σ), R s e → l.foldlM f s = some s' →
      ∃ e', l.foldlM f e = some e' ∧ R s' e' := by
  intro l
  induction l with
  | nil =>
    intro s e s' hR h
    simp at h
    subst h
    exact ⟨e, by simp, hR⟩
  | cons a l ih =>
    intro s e s' hR h
    simp only [List.foldlM_cons, Option.bind_eq_bind, Option.bind_eq_some] at h
    obtain ⟨m, hm, hrest⟩ := h
    obtain ⟨em, hem, hRm⟩ := hstep s e a m hR hm
    obtain ⟨e', he', hR'⟩ := ih m em s' hRm hrest
    exact ⟨e', by simp [hem, he'], hR'⟩

theorem mem_foldl_collectName (name : String) (ops : List Operation) (l : List String) :
    name ∈ ops.foldl collectName l ↔ name ∈ l ∨ name ∈ ops.map (fun op => op.name) := by
  induction ops generalizing l with
  | nil => simp
  | cons op ops ih =>
    simp only [List.foldl_cons, ih, List.map_cons, List.mem_cons]
    unfold collectName
    split
    · constructor
      · rintro (h | h)
        · exact Or.inl h
        · exact Or.inr (Or.inr h)
      · rintro (h | h | h)
        · exact Or.inl h
        · subst h; exact Or.inl (by assumption)
        · exact Or.inr h
    · simp only [List.mem_append, List.mem_singleton]
      tauto

theorem mem_buildOpList (graph : Graph) (name : String) :
    name ∈ buildOpList graph
      ↔ name ∈ graph.operations.map (fun op => op.name)
        ∨ name = "local_response_normalization" := by
  simp [buildOpList, mem_foldl_collectName]

theorem externalOutput_op_list (graph : Graph) (operation : Operation) (s s' : Gen)
    (output : String × Value) (h : externalOutput graph operation s output = some s') :
    s'.op_list = s.op_list := by
  simp only [externalOutput, Option.bind_eq_bind, Option.bind_eq_some, Option.pure_def,
    Option.some.injEq] at h
  obtain ⟨_, _, _, _, h⟩ := h
  subst h
  rfl

theorem variableOutput_op_list (graph : Graph) (operation : Operation) (s s' : Gen)
    (output : String × Value) (h : variableOutput graph operation s output = some s') :
    s'.op_list = s.op_list := by
  simp only [variableOutput, Option.bind_eq_bind, Option.bind_eq_some, Option.pure_def,
    Option.some.injEq] at h
  obtain ⟨_, _, _, _, _, _, h⟩ := h
  subst h
  rfl

theorem callOutput_op_list (graph : Graph) (acc acc' : Gen × Nat)
    (output : String × Value) (h : callOutput graph acc output = some acc') :
    acc'.1.op_list = acc.1.op_list := by
  simp only [callOutput, Option.bind_eq_bind, Option.bind_eq_some, Option.pure_def,
    Option.some.injEq] at h
  obtain ⟨_, _, _, _, h⟩ := h
  subst h
  dsimp only
  split <;> rfl

theorem emitCall_op_list (graph : Graph) (s s' : Gen) (operation : Operation)
    (h : emitCall hdr graph s operation = some s') : s'.op_list = s.op_list := by
  simp only [emitCall, Option.bind_eq_bind, Option.bind_eq_some, Option.pure_def,
    Option.some.injEq] at h
  obtain ⟨ins, _, att, _, out, hout, h⟩ := h
  subst h
  have := foldlM_invariant (callOutput graph) (fun a b => b.1.op_list = a.1.op_list)
    (fun _ => rfl) (fun _ _ _ hab hbc => hbc.trans hab)
    (fun a o b hb => callOutput_op_list graph a b o hb) _ _ _ hout
  simpa using this

theorem emitOperation_op_list (graph : Graph) (s s' : Gen) (operation : Operation)
    (h : emitOperation hdr graph s operation = some s') : s'.op_list = s.op_list := by
  unfold emitOperation at h
  split at h
  · exact foldlM_invariant (externalOutput graph operation) (fun a b => b.op_list = a.op_list)
      (fun _ => rfl) (fun _ _ _ hab hbc => hbc.trans hab)
      (fun a o b hb => externalOutput_op_list graph operation a b o hb) _ _ _ h
  · split at h
    · exact foldlM_invariant (variableOutput graph operation)
        (fun a b => b.op_list = a.op_list)
        (fun _ => rfl) (fun _ _ _ hab hbc => hbc.trans hab)
        (fun a o b hb => variableOutput_op_list graph operation a b o hb) _ _ _ h
    · exact emitCall_op_list graph s s' operation h

theorem emitOperations_op_list (graph : Graph) (ops : List Operation) (s s' : Gen)
    (h : ops.foldlM (emitOperation hdr graph) s = some s') : s'.op_list = s.op_list :=
  foldlM_invariant (emitOperation hdr graph) (fun a b => b.op_list = a.op_list)
    (fun _ => rfl) (fun _ _ _ hab hbc => hbc.trans hab)
    (fun a o b hb => emitOperation_op_list graph a b o hb) ops s s' h

/-! ### Identifier resolver -/

/-- The claim C8: in any state `s` the emission pass reaches (after any list
of operations has been emitted from the initial state), `tensor_id` appends
`_0` to a name exactly when it is the name of an operation of the graph or the
reserved name, and leaves any other name unchanged: the list searched is the
one the first pass built. -/
theorem C8_tensor_id_known_names (graph : Graph) (ops : List Operation) (s : Gen)
    (name : String)
    (h : ops.foldlM (emitOperation hdr graph) (initGen graph) = some s) :
    s.op_list = buildOpList graph
    ∧ tensor_id s.op_list name
      = if name ∈ graph.operations.map (fun op => op.name)
          ∨ name = "local_response_normalization"
        then name ++ "_0" else name := by
  have hop : s.op_list = buildOpList graph :=
    emitOperations_op_list graph ops (initGen graph) s h
  refine ⟨hop, ?_⟩
  rw [hop]
  unfold tensor_id
  simp only [mem_buildOpList]

/-! ### Attribute formatter -/

/-- A number in the range of `integer_t` is left as it is by the reduction. -/
theorem wrapInteger_of_inRange (bits : Nat) (x : Int) (h : inIntegerRange bits x) :
    wrapInteger bits x = x := by
  obtain ⟨hb, hlo, hhi⟩ := h
  unfold wrapInteger
  have e : (2 : Int) ^ bits = 2 * 2 ^ (bits - 1) := by
    obtain ⟨k, rfl⟩ : ∃ k, bits = k + 1 := ⟨bits - 1, by omega⟩
    simp only [Nat.add_sub_cancel, pow_succ]
    ring
  rw [e]
  generalize (2 : Int) ^ (bits - 1) = half at *
  rw [Int.emod_eq_of_lt (by omega) (by omega)]
  omega

/-- The claim C4, amended: an integer attribute is written as its decimal
text for every attribute name other than `border`, `axis` and `axis_start`; for
`axis` and `axis_start` it is written one greater, provided that the sum is a
value of `integer_t`. -/
theorem C4_integer_attribute (graph : Graph) (op : Operation) (attr : String) (v : Int)
    (hb : attr ≠ "border")
    (hv : attr = "axis" ∨ attr = "axis_start" → inIntegerRange hdr.integerBits (v + 1)) :
    param_description hdr graph op attr (.integer v)
      = some (attr ++ " => "
          ++ decimal (if attr = "axis" ∨ attr = "axis_start" then v + 1 else v)) := by
  unfold param_description
  rw [if_neg hb]
  by_cases h : attr = "axis" ∨ attr = "axis_start"
  · simp [h, wrapInteger_of_inRange _ _ (hv h)]
  · simp [h]

/-- The claim C4 as stated fails at the largest value of an `integer_t` of 32
bits: the sum `v + 1` is taken in `integer_t`, and the text written for the
attribute `axis` is that of the smallest value, not of `v + 1`. -/
theorem C4_counterexample_largest_integer :
    param_description sampleHeader sampleGraph poolOnX "axis" (.integer 2147483647)
        = some "axis => -2147483648"
      ∧ param_description sampleHeader sampleGraph poolOnX "axis" (.integer 2147483647)
        ≠ some ("axis => " ++ decimal (2147483647 + 1)) := by
  decide

theorem itemsDescription_other (attr : String) (h : attr ≠ "axes") (i : Nat)
    (items : List Value) :
    itemsDescription hdr attr i items = some (sepLoop render i items) := by
  induction items generalizing i with
  | nil => simp [itemsDescription, sepLoop]
  | cons v vs ih => simp [itemsDescription, sepLoop, ih, h, String.append_assoc]

theorem itemsDescription_axes (i : Nat) (ints : List Int)
    (hr : ∀ e ∈ ints, inIntegerRange hdr.integerBits (e + 1)) :
    itemsDescription hdr "axes" i (ints.map Value.integer)
      = some (sepLoop (fun e => decimal (e + 1)) i ints) := by
  induction ints generalizing i with
  | nil => simp [itemsDescription, sepLoop]
  | cons v vs ih =>
    have hv := wrapInteger_of_inRange _ _ (hr v (List.mem_cons_self v vs))
    have ht := ih (i + 1) (fun e he => hr e (List.mem_cons_of_mem v he))
    simp only [List.map_cons, itemsDescription, Value.integer?, if_true, Option.map_some',
      hv, ht, sepLoop]
    simp [String.append_assoc]

/-- The case of one element of an attribute other than `axes`: the element as
the inserter of the header writes it. -/
theorem arrayDescription_single (graph : Graph) (op : Operation) (attr : String)
    (h : attr ≠ "axes") (v : Value) :
    arrayDescription hdr graph op attr [v] = some ("(1 => " ++ hdr.print v ++ ")") := by
  simp [arrayDescription, singleDescription, h]

/-- The case of two or more elements of an attribute other than `axes`: the
elements as the value renderer writes them. -/
theorem arrayDescription_other (graph : Graph) (op : Operation) (attr : String)
    (h : attr ≠ "axes") (items : List Value) (hne : 2 ≤ items.length) :
    arrayDescription hdr graph op attr items = some (specTuple (items.map render)) := by
  match items, hne with
  | v :: w :: rest, _ =>
    simp [arrayDescription, itemsDescription_other attr h, sepLoop_zero, specTuple]

theorem arrayDescription_axes (graph : Graph) (op : Operation) (ints : List Int)
    (hne : ints ≠ []) (hr : ∀ e ∈ ints, inIntegerRange hdr.integerBits (e + 1)) :
    arrayDescription hdr graph op "axes" (ints.map Value.integer)
      = some (specTuple (ints.map (fun e => decimal (e + 1)))) := by
  match ints, hne, hr with
  | [v], _, hr =>
    have hv := wrapInteger_of_inRange _ _ (hr v (List.mem_singleton_self v))
    simp [arrayDescription, singleDescription, specTuple, Value.integer?, hv]
  | v :: w :: rest, _, hr =>
    have := itemsDescription_axes 0 (v :: w :: rest) hr
    simp only [List.map_cons] at this
    simp [arrayDescription, this, sepLoop_zero, specTuple]

/-- The claim C5, amended: a non-empty array or tuple attribute other than
`border` is written as `(1 => E1)` for one element and as the `", "`-joined
list between parentheses for two or more.  For `axes` the element texts are the
integers plus one, provided that each sum is a value of `integer_t`.  For any
other attribute the texts of two or more elements are the value renderer's,
and the text of a single element is the one the inserter of the header
writes. -/
theorem C5_nonempty_array_attribute (graph : Graph) (op : Operation) (attr : String)
    (items : List Value) (ints : List Int)
    (hb : attr ≠ "border") (hne : items ≠ [])
    (hax : attr = "axes" → items = ints.map Value.integer
      ∧ ∀ e ∈ ints, inIntegerRange hdr.integerBits (e + 1)) :
    param_description hdr graph op attr (.array items)
      = some (attr ++ " => " ++ specTuple
          (if attr = "axes" then ints.map (fun e => decimal (e + 1))
           else if items.length = 1 then items.map hdr.print
           else items.map render))
    ∧ param_description hdr graph op attr (.tuple items)
      = param_description hdr graph op attr (.array items) := by
  refine ⟨?_, by simp [param_description, hb]⟩
  unfold param_description
  rw [if_neg hb]
  by_cases h : attr = "axes"
  · obtain ⟨hi, hr⟩ := hax h
    subst h
    subst hi
    have hne' : ints ≠ [] := by
      intro h0
      apply hne
      simp [h0]
    simp [arrayDescription_axes graph op ints hne' hr]
  · match items, hne with
    | [v], _ => simp [arrayDescription_single graph op attr h v, h, specTuple]
    | v :: w :: rest, _ =>
      have h2 : 2 ≤ (v :: w :: rest).length := by simp
      simp [arrayDescription_other graph op attr h (v :: w :: rest) h2, h]

/-- The claim C5 as stated fails for `axes` at the largest value of an
`integer_t` of 32 bits: the sum is taken in `integer_t`, and the first element
is written as the smallest value. -/
theorem C5_counterexample_largest_axis :
    param_description sampleHeader sampleGraph poolOnX "axes"
        (.array [.integer 2147483647, .integer 0])
        = some "axes => (-2147483648, 1)"
      ∧ param_description sampleHeader sampleGraph poolOnX "axes"
        (.array [.integer 2147483647, .integer 0])
        ≠ some ("axes => (" ++ decimal (2147483647 + 1) ++ ", " ++ decimal (0 + 1) ++ ")") := by
  decide

/-- The text of the zero loop: three characters a round, less the separator
of the first round when the loop starts at index zero. -/
theorem zeroLoop_length (i n : Nat) :
    (zeroLoop i n).length = if i = 0 ∧ 0 < n then 3 * n - 2 else 3 * n := by
  induction n generalizing i with
  | zero => simp [zeroLoop]
  | succ n ih =>
    have h1 : ", ".length = 2 := by decide
    have h2 : "0".length = 1 := by decide
    simp only [zeroLoop, String.length_append, ih, h2]
    by_cases hi : i = 0
    · simp [hi]
      omega
    · simp [hi, h1]
      omega

theorem zeroLoop_succ (i n : Nat) :
    zeroLoop (i + 1) n = String.join (List.replicate n ", 0") := by
  induction n generalizing i with
  | zero => simp [zeroLoop, join_nil]
  | succ n ih =>
    have : ", " ++ "0" = ", 0" := by decide
    simp [zeroLoop, ih, List.replicate_succ, join_cons, ← String.append_assoc, this]

theorem zeroLoop_zero (n : Nat) :
    zeroLoop 0 n = String.intercalate ", " (List.replicate n "0") := by
  cases n with
  | zero => simp [zeroLoop, String.intercalate]
  | succ n =>
    have : ", " ++ "0" = ", 0" := by decide
    simp [zeroLoop, zeroLoop_succ, List.replicate_succ, intercalate_cons, this]

/-- The claim C2, amended: for an operation whose first input names a tensor
of the graph, an empty array or tuple attribute other than `border`,
`padding`, `stride` and `dilation` is written as a tuple of zeros joined by
`", "`, as many as the rank of that tensor, two fewer for `conv`, provided a
`conv` input has rank at least 2. -/
theorem C2_empty_array_zero_tuple (graph : Graph) (op : Operation) (attr p id : String)
    (rest : List (String × Value)) (tensor : Tensor)
    (hin : op.inputs = (p, .identifier id) :: rest)
    (ht : graph.tensorsAt id = some tensor)
    (hb : attr ≠ "border") (hp : attr ≠ "padding") (hs : attr ≠ "stride")
    (hd : attr ≠ "dilation")
    (hsize : tensor.shape.length < 2 ^ 64)
    (hconv : op.name = "conv" → 2 ≤ tensor.shape.length) :
    param_description hdr graph op attr (.array [])
      = some (attr ++ " => (" ++ String.intercalate ", "
          (List.replicate
            (if op.name = "conv" then tensor.shape.length - 2 else tensor.shape.length)
            "0") ++ ")")
    ∧ param_description hdr graph op attr (.tuple [])
      = param_description hdr graph op attr (.array []) := by
  refine ⟨?_, by simp [param_description, hb]⟩
  have hrank : (if op.name = "conv" then (tensor.shape.length + 2 ^ 64 - 2) % 2 ^ 64
        else tensor.shape.length)
      = if op.name = "conv" then tensor.shape.length - 2 else tensor.shape.length := by
    by_cases hc : op.name = "conv"
    · have h2 := hconv hc
      have : tensor.shape.length + 2 ^ 64 - 2 = (tensor.shape.length - 2) + 2 ^ 64 := by omega
      rw [if_pos hc, if_pos hc, this, Nat.add_mod_right]
      exact Nat.mod_eq_of_lt (by omega)
    · rw [if_neg hc, if_neg hc]
  simp only [param_description, if_neg hb, arrayDescription, emptyDescription, hin,
    List.head?_cons, Value.identifier?, ht, Option.bind_eq_bind, Option.some_bind,
    Option.pure_def, if_neg hp, if_neg hs, if_neg hd, hrank, zeroLoop_zero]
  have e : (" => (" : String) = " => " ++ "(" := by decide
  rw [e]
  simp only [String.append_assoc]

/-- The claim C2 fails for a `conv` whose first input has rank 1: the wrapped
rank makes the loop write `2^64 - 1` zeros, so the text is not the empty tuple
that "rank minus 2" zeros would give. -/
theorem C2_counterexample_conv_rank_one :
    (param_description sampleHeader rankOneGraph convOnX "size" (.array [])).map String.length
      = some (3 * (2 ^ 64 - 1) + 8)
    ∧ param_description sampleHeader rankOneGraph convOnX "size" (.array [])
      ≠ some ("size => (" ++ String.intercalate ", " (List.replicate (1 - 2) "0") ++ ")") := by
  have hpd : param_description sampleHeader rankOneGraph convOnX "size" (.array [])
      = some ("size" ++ " => " ++ ("(" ++ zeroLoop 0 (2 ^ 64 - 1) ++ ")")) := by
    simp [param_description, arrayDescription, emptyDescription, rankOneGraph, convOnX,
      Graph.tensorsAt, List.lookup, Value.identifier?]
  have hlen : ("size" ++ " => " ++ ("(" ++ zeroLoop 0 (2 ^ 64 - 1) ++ ")")).length
      = 3 * (2 ^ 64 - 1) + 8 := by
    have h1 : "size".length = 4 := by decide
    have h2 : " => ".length = 4 := by decide
    have h3 : "(".length = 1 := by decide
    have h4 : ")".length = 1 := by decide
    simp only [String.length_append, zeroLoop_length, h1, h2, h3, h4]
    norm_num
  refine ⟨by rw [hpd, Option.map_some', hlen], ?_⟩
  rw [hpd]
  intro h
  have h' := congrArg (Option.map String.length) h
  rw [Option.map_some', Option.map_some', hlen] at h'
  revert h'
  decide

/-- The claim C3, amended: for an operation whose first input names a tensor
of the graph, an empty array or tuple is written as `Padding_Auto` for
`padding`, `Default_Stride` for `stride` and `Default_Dilation` for
`dilation`. -/
theorem C3_empty_array_symbolic_default (graph : Graph) (op : Operation) (p id : String)
    (rest : List (String × Value)) (tensor : Tensor)
    (hin : op.inputs = (p, .identifier id) :: rest)
    (ht : graph.tensorsAt id = some tensor) :
    param_description hdr graph op "padding" (.array []) = some "padding => Padding_Auto"
    ∧ param_description hdr graph op "stride" (.array []) = some "stride => Default_Stride"
    ∧ param_description hdr graph op "dilation" (.array [])
        = some "dilation => Default_Dilation"
    ∧ param_description hdr graph op "padding" (.tuple []) = some "padding => Padding_Auto"
    ∧ param_description hdr graph op "stride" (.tuple []) = some "stride => Default_Stride"
    ∧ param_description hdr graph op "dilation" (.tuple [])
        = some "dilation => Default_Dilation" := by
  simp [param_description, arrayDescription, emptyDescription, hin, Value.identifier?, ht]

/-- The claim C3 fails when the first input names a tensor that is not in
`graph.tensors`: the lookup made before the attribute name is examined throws,
and no text is returned for an empty `padding`, `stride` or `dilation`. -/
theorem C3_counterexample_absent_tensor :
    emptyGraph.tensorsAt "x" = none
    ∧ param_description sampleHeader emptyGraph poolOnX "padding" (.array []) = none
    ∧ param_description sampleHeader emptyGraph poolOnX "stride" (.array []) = none
    ∧ param_description sampleHeader emptyGraph poolOnX "dilation" (.array []) = none
    ∧ param_description sampleHeader emptyGraph poolOnX "padding" (.array [])
        ≠ some "padding => Padding_Auto" := by
  simp [param_description, arrayDescription, emptyDescription, emptyGraph, poolOnX,
    Graph.tensorsAt, List.lookup, Value.identifier?]

/-! ### Operation emitter -/

theorem inputFragment_identifier (op_list : List String) (p id : String) :
    inputFragment hdr op_list (p, .identifier id) = p ++ " => " ++ tensor_id op_list id := rfl

/-- Past index zero the input loop writes a separator and the plain fragment
of every input, and ends with the index advanced by their number. -/
theorem inputLoop_succ (op_list : List String) (operation : Operation) (i : Nat)
    (rest : List (String × Value)) :
    inputLoop hdr op_list operation (i + 1) rest
      = some (String.join (rest.map (fun x => ", " ++ inputFragment hdr op_list x)),
          i + 1 + rest.length) := by
  induction rest generalizing i with
  | nil => simp [inputLoop, join_nil]
  | cons a rest ih =>
    cases rest with
    | nil => simp [inputLoop, join_cons, join_nil]
    | cons b rest =>
      have := ih (i + 1)
      simp only [inputLoop] at this ⊢
      simp [this, join_cons, String.append_assoc]
      omega

theorem attribStep_append (graph : Graph) (operation : Operation) (acc acc' : String × Nat)
    (attr : String × Value) (h : attribStep hdr graph operation acc attr = some acc') :
    ∃ t, acc'.1 = acc.1 ++ t := by
  simp only [attribStep, Option.bind_eq_bind, Option.bind_eq_some, Option.pure_def,
    Option.some.injEq] at h
  obtain ⟨d, _, h⟩ := h
  subst h
  exact ⟨(if acc.2 ≠ 0 then ", " else "") ++ d, by simp [String.append_assoc]⟩

theorem attribLoop_append (graph : Graph) (operation : Operation) (acc acc' : String × Nat)
    (h : attribLoop hdr graph operation acc = some acc') : ∃ t, acc'.1 = acc.1 ++ t := by
  unfold attribLoop at h
  split at h
  · refine foldlM_invariant (attribStep hdr graph operation) (fun a b => ∃ t, b.1 = a.1 ++ t)
      (fun a => ⟨"", by simp⟩) ?_ (fun a o b hb => attribStep_append graph operation a b o hb)
      _ _ _ h
    rintro a b c ⟨t, ht⟩ ⟨u, hu⟩
    exact ⟨t ++ u, by rw [hu, ht, String.append_assoc]⟩
  · simp at h
    subst h
    exact ⟨"", by simp⟩

theorem callOutput_append (graph : Graph) (acc acc' : Gen × Nat) (output : String × Value)
    (h : callOutput graph acc output = some acc') :
    ∃ t, acc'.1.fwd_text = acc.1.fwd_text ++ t := by
  simp only [callOutput, Option.bind_eq_bind, Option.bind_eq_some, Option.pure_def,
    Option.some.injEq] at h
  obtain ⟨id, _, tensor, _, h⟩ := h
  subst h
  exact ⟨(if acc.2 ≠ 0 then ", " else "") ++ output.1 ++ " => " ++ tensor_id acc.1.op_list id,
    by simp [String.append_assoc]⟩

theorem callOutputs_append (graph : Graph) (outputs : List (String × Value))
    (acc acc' : Gen × Nat) (h : outputs.foldlM (callOutput graph) acc = some acc') :
    ∃ t, acc'.1.fwd_text = acc.1.fwd_text ++ t := by
  refine foldlM_invariant (callOutput graph)
    (fun a b => ∃ t, b.1.fwd_text = a.1.fwd_text ++ t)
    (fun a => ⟨"", by simp⟩) ?_ (fun a o b hb => callOutput_append graph a b o hb) _ _ _ h
  rintro a b c ⟨t, ht⟩ ⟨u, hu⟩
  exact ⟨t ++ u, by rw [hu, ht, String.append_assoc]⟩

/-- A call statement starts with the indentation, the operation name, an
opening parenthesis and the text of the input loop. -/
theorem emitCall_prefix (graph : Graph) (s s' : Gen) (operation : Operation)
    (ins : String × Nat)
    (hins : inputLoop hdr s.op_list operation 0 operation.inputs = some ins)
    (h : emitCall hdr graph s operation = some s') :
    ∃ t, s'.fwd_text
      = s.fwd_text ++ "        " ++ operation.name ++ " (" ++ ins.1 ++ t := by
  simp only [emitCall, hins, Option.bind_eq_bind, Option.some_bind, Option.bind_eq_some,
    Option.pure_def, Option.some.injEq] at h
  obtain ⟨att, hatt, out, hout, h⟩ := h
  subst h
  obtain ⟨t, ht⟩ := attribLoop_append graph operation _ _ hatt
  obtain ⟨u, hu⟩ := callOutputs_append graph _ _ _ hout
  simp only at ht hu
  exact ⟨t ++ u ++ ");" ++ "\n", by simp only [hu, ht, String.append_assoc]⟩

/-- The claim C1, amended: for an `add` or `mul` whose first input is a
non-identifier value and whose second input is an identifier, the input loop
writes the first parameter name with the resolved identifier, then the second
parameter name with the literal as the inserter of the header writes it (the
values are exchanged, the names keep their places), then the remaining inputs;
every call statement emitted for the operation starts with that text after the
operation name. -/
theorem C1_add_mul_swap (op_list : List String) (operation : Operation) (pA pB id : String)
    (lit : Value) (rest : List (String × Value))
    (hname : operation.name = "add" ∨ operation.name = "mul")
    (hin : operation.inputs = (pA, lit) :: (pB, .identifier id) :: rest)
    (hlit : lit.kind ≠ Kind.Identifier) :
    inputLoop hdr op_list operation 0 operation.inputs
      = some (pA ++ " => " ++ tensor_id op_list id ++ ", " ++ pB ++ " => " ++ hdr.print lit
          ++ String.join (rest.map (fun x => ", " ++ inputFragment hdr op_list x)),
          operation.inputs.length)
    ∧ ∀ (graph : Graph) (s s' : Gen), s.op_list = op_list →
        emitCall hdr graph s operation = some s' →
        ∃ t, s'.fwd_text = s.fwd_text ++ "        " ++ operation.name ++ " ("
          ++ (pA ++ " => " ++ tensor_id op_list id ++ ", " ++ pB ++ " => " ++ hdr.print lit)
          ++ t := by
  have hloop : inputLoop hdr op_list operation 0 operation.inputs
      = some (pA ++ " => " ++ tensor_id op_list id ++ ", " ++ pB ++ " => " ++ hdr.print lit
          ++ String.join (rest.map (fun x => ", " ++ inputFragment hdr op_list x)),
          operation.inputs.length) := by
    have h2 : 2 ≤ operation.inputs.length := by simp [hin]
    have hr := @inputLoop_succ hdr op_list operation 1 rest
    rw [hin]
    simp only [inputLoop]
    rw [if_pos ⟨hname, trivial, hlit, h2, rfl⟩]
    simp [Value.identifier?, hr, String.append_assoc]
    omega
  refine ⟨hloop, ?_⟩
  intro graph s s' hs h
  subst hs
  obtain ⟨t, ht⟩ := emitCall_prefix graph s s' operation _ hloop h
  exact ⟨String.join (rest.map (fun x => ", " ++ inputFragment hdr s.op_list x)) ++ t,
    by simp only [ht, String.append_assoc]⟩

/-- The claim C1 fails as stated: for `add (x = 2, y = t)` the call statement
is `add (x => t, y => L, z => s);`, where `L` is the text the inserter of the
header writes for the literal: the identifier stands under the first parameter
name, and whatever the header writes, the statement does not start with
`add (y => t`. -/
theorem C1_counterexample_names_keep_place :
    ¬ ∃ (header : Header) (rest : String),
      (emitCall header swapGraph (initGen swapGraph) addLiteralFirst).map (fun s => s.fwd_text)
        = some ("        add (y => t" ++ rest) := by
  rintro ⟨header, rest, h⟩
  have e : (emitCall header swapGraph (initGen swapGraph) addLiteralFirst).map
      (fun s => s.fwd_text)
      = some ("        add (x => t, y => " ++ header.print (.integer 2) ++ ", z => s);\n") := by
    simp [emitCall, inputLoop, attribLoop, callOutput, swapGraph, addLiteralFirst, initGen,
      buildOpList, Graph.tensorsAt, List.lookup, Value.identifier?, Value.kind, tensor_id,
      String.append_assoc]
    apply String.ext
    simp only [String.data_append]
    rfl
  rw [e] at h
  have hd := congrArg String.data (Option.some.inj h)
  simp [String.data_append] at hd

/-- Evidence for C1: the amended statement at `add (x = 2, y = t)`. -/
theorem C1_add_mul_swap_witness :
    ((addLiteralFirst.name = "add" ∨ addLiteralFirst.name = "mul")
      ∧ addLiteralFirst.inputs = [("x", .integer 2), ("y", .identifier "t")]
      ∧ (Value.integer 2).kind ≠ Kind.Identifier)
    ∧ inputLoop sampleHeader [] addLiteralFirst 0 addLiteralFirst.inputs
      = some ("x => t, y => " ++ sampleHeader.print (.integer 2), 2) :=
  ⟨⟨Or.inl rfl, rfl, by decide⟩,
    (C1_add_mul_swap [] addLiteralFirst "x" "y" "t" (.integer 2) []
      (Or.inl rfl) rfl (by decide)).1⟩

theorem variableOutputs_effect (graph : Graph) (operation : Operation) (L : String)
    (hname : operation.name = "variable")
    (hlabel : operation.attribsGet "label" = .string L)
    (outputs : List (String × Value)) (ts : List Tensor)
    (houts : List.Forall₂
      (fun o t => ∃ id, o.2 = Value.identifier id ∧ graph.tensorsAt id = some t) outputs ts)
    (s : Gen) :
    ∃ s', outputs.foldlM (variableOutput graph operation) s = some s'
      ∧ s'.op_list = s.op_list
      ∧ s'.load = s.load ++ String.join (ts.map (fun t =>
          "    variable (\"" ++ L ++ "\", " ++ tensor_id s.op_list t.name ++ ");\n"))
      ∧ s'.declarations = s.declarations ++ String.join (ts.map (fun t =>
          "    " ++ tensor_id s.op_list t.name ++ ": " ++ tensor_typename t ++ " ("
            ++ String.intercalate ", " (t.shape.map (fun n => "1.." ++ decimal n))
            ++ ");\n")) := by
  induction houts generalizing s with
  | nil => exact ⟨s, by simp [join_nil]⟩
  | @cons o t outputs ts hot _ ih =>
    obtain ⟨id, hid, ht⟩ := hot
    have e1 : ("    variable (\"" : String) = "    " ++ "variable" ++ " (\"" := by decide
    have e2 : (");\n" : String) = ");" ++ "\n" := by decide
    obtain ⟨s', hs', hop, hload, hdecl⟩ := ih
      { s with
        declarations := s.declarations ++ "    " ++ tensor_declaration s.op_list t ++ "\n"
        load := s.load ++ ("    " ++ operation.name ++ " (\"" ++ L ++ "\", "
          ++ tensor_id s.op_list t.name ++ ");") ++ "\n"
        variable_types := setInsert (tensor_typename t) s.variable_types
        all_types := setInsert (tensor_typename t) s.all_types }
    refine ⟨s', ?_, hop, ?_, ?_⟩
    · simp [variableOutput, hid, Value.identifier?, ht, hlabel, Value.string?, hs']
    · simp only [hload, List.map_cons, join_cons, hname, e1, e2, String.append_assoc]
    · simp only [hdecl, List.map_cons, join_cons, tensor_declaration, tensor_extents,
        sepLoop_zero, e2, String.append_assoc]

/-- The claim C6, amended: a `variable` operation with the string label `L`
writes, for each output tensor, the load statement `variable ("L", id);` with
the resolved tensor name and the declaration `id: TypeName (extents);` whose
extents are `1..n` for every entry `n` of the shape stored on the tensor object
in `graph.tensors`, joined by `", "`. -/
theorem C6_variable_statements (graph : Graph) (s : Gen) (operation : Operation)
    (L : String) (ts : List Tensor)
    (hname : operation.name = "variable")
    (hlabel : operation.attribsGet "label" = .string L)
    (houts : List.Forall₂
      (fun o t => ∃ id, o.2 = Value.identifier id ∧ graph.tensorsAt id = some t)
      operation.outputs ts) :
    ∃ s', emitOperation hdr graph s operation = some s'
      ∧ s'.load = s.load ++ String.join (ts.map (fun t =>
          "    variable (\"" ++ L ++ "\", " ++ tensor_id s.op_list t.name ++ ");\n"))
      ∧ s'.declarations = s.declarations ++ String.join (ts.map (fun t =>
          "    " ++ tensor_id s.op_list t.name ++ ": " ++ tensor_typename t ++ " ("
            ++ String.intercalate ", " (t.shape.map (fun n => "1.." ++ decimal n))
            ++ ");\n")) := by
  obtain ⟨s', hs', _, hload, hdecl⟩ :=
    variableOutputs_effect graph operation L hname hlabel operation.outputs ts houts s
  refine ⟨s', ?_, hload, hdecl⟩
  have hne : operation.name ≠ "external" := by rw [hname]; decide
  simp [emitOperation, hne, hname, hs']

/-- The claim C6 fails when the stored shape differs from the `shape`
attribute: for the attribute `[3, 4]` and the stored shape `[5]` the
declaration has the extents `1..5`. -/
theorem C6_counterexample_stored_shape :
    render (variableW.attribsGet "shape") = "(3, 4)"
    ∧ (emitOperation sampleHeader variableGraph (initGen variableGraph) variableW).map
        (fun s => (s.load, s.declarations))
      = some ("    variable (\"w1\", w);\n", "    w: Real_Vector (1..5);\n")
    ∧ (emitOperation sampleHeader variableGraph (initGen variableGraph) variableW).map
        (fun s => s.declarations) ≠ some "    w: Real_Vector (1..3, 1..4);\n"
    ∧ (emitOperation sampleHeader variableGraph (initGen variableGraph) variableW).map
        (fun s => s.declarations) ≠ some "    w: Real_Matrix (1..3, 1..4);\n" := by
  decide

/-! ### The buffers written by one operation -/

theorem externalOutput_lockstep (graph : Graph) (operation : Operation) (p : String)
    (s e : Gen) (o : String × Value) (s' : Gen)
    (hR : s.op_list = e.op_list ∧ s.load = p ++ e.load)
    (h : externalOutput graph operation s o = some s') :
    ∃ e', externalOutput graph operation e o = some e'
      ∧ (s'.op_list = e'.op_list ∧ s'.load = p ++ e'.load) := by
  simp only [externalOutput, Option.bind_eq_bind, Option.bind_eq_some, Option.pure_def,
    Option.some.injEq] at h
  obtain ⟨id, hid, tensor, ht, h⟩ := h
  subst h
  obtain ⟨h1, h2⟩ := hR
  simp only [externalOutput, hid, ht, Option.bind_eq_bind, Option.some_bind, Option.pure_def]
  refine ⟨_, rfl, h1, ?_⟩
  simp only [h1, h2, String.append_assoc]

theorem externalOutput_fwd_text (graph : Graph) (operation : Operation) (s s' : Gen)
    (o : String × Value) (h : externalOutput graph operation s o = some s') :
    s'.fwd_text = s.fwd_text := by
  simp only [externalOutput, Option.bind_eq_bind, Option.bind_eq_some, Option.pure_def,
    Option.some.injEq] at h
  obtain ⟨_, _, _, _, h⟩ := h
  subst h
  rfl

theorem variableOutput_lockstep (graph : Graph) (operation : Operation) (p : String)
    (s e : Gen) (o : String × Value) (s' : Gen)
    (hR : s.op_list = e.op_list ∧ s.load = p ++ e.load)
    (h : variableOutput graph operation s o = some s') :
    ∃ e', variableOutput graph operation e o = some e'
      ∧ (s'.op_list = e'.op_list ∧ s'.load = p ++ e'.load) := by
  simp only [variableOutput, Option.bind_eq_bind, Option.bind_eq_some, Option.pure_def,
    Option.some.injEq] at h
  obtain ⟨id, hid, tensor, ht, text, htext, h⟩ := h
  subst h
  obtain ⟨h1, h2⟩ := hR
  simp only [variableOutput, hid, ht, htext, Option.bind_eq_bind, Option.some_bind,
    Option.pure_def]
  refine ⟨_, rfl, h1, ?_⟩
  simp only [h1, h2, String.append_assoc]

theorem variableOutput_fwd_text (graph : Graph) (operation : Operation) (s s' : Gen)
    (o : String × Value) (h : variableOutput graph operation s o = some s') :
    s'.fwd_text = s.fwd_text := by
  simp only [variableOutput, Option.bind_eq_bind, Option.bind_eq_some, Option.pure_def,
    Option.some.injEq] at h
  obtain ⟨_, _, _, _, _, _, h⟩ := h
  subst h
  rfl

/-- An `external` or `variable` operation leaves the call buffer as it is and
appends its load statements to the load buffer. -/
theorem loadOp_effect (graph : Graph) (s s' : Gen) (operation : Operation)
    (hop : isLoadOp operation = true) (h : emitOperation hdr graph s operation = some s') :
    s'.fwd_text = s.fwd_text
    ∧ ∃ t, loadStatements hdr graph s.op_list operation = some t ∧ s'.load = s.load ++ t := by
  have hR : s.op_list = (freshGen s.op_list).op_list
      ∧ s.load = s.load ++ (freshGen s.op_list).load := by
    simp [freshGen]
  unfold loadStatements
  unfold emitOperation at h ⊢
  by_cases hext : operation.name = "external"
  · rw [if_pos hext] at h ⊢
    obtain ⟨e', he', _, h2⟩ := foldlM_lockstep (externalOutput graph operation)
      (fun x y => x.op_list = y.op_list ∧ x.load = s.load ++ y.load)
      (fun a b o a' => externalOutput_lockstep graph operation s.load a b o a')
      _ _ _ _ hR h
    refine ⟨?_, e'.load, by rw [he']; rfl, h2⟩
    exact foldlM_invariant (externalOutput graph operation)
      (fun a b => b.fwd_text = a.fwd_text) (fun _ => rfl) (fun _ _ _ hab hbc => hbc.trans hab)
      (fun a o b hb => externalOutput_fwd_text graph operation a b o hb) _ _ _ h
  · have hvar : operation.name = "variable" := by
      simpa [isLoadOp, hext] using hop
    rw [if_neg hext, if_pos hvar] at h ⊢
    obtain ⟨e', he', _, h2⟩ := foldlM_lockstep (variableOutput graph operation)
      (fun x y => x.op_list = y.op_list ∧ x.load = s.load ++ y.load)
      (fun a b o a' => variableOutput_lockstep graph operation s.load a b o a')
      _ _ _ _ hR h
    refine ⟨?_, e'.load, by rw [he']; rfl, h2⟩
    exact foldlM_invariant (variableOutput graph operation)
      (fun a b => b.fwd_text = a.fwd_text) (fun _ => rfl) (fun _ _ _ hab hbc => hbc.trans hab)
      (fun a o b hb => variableOutput_fwd_text graph operation a b o hb) _ _ _ h

theorem attribStep_lockstep (graph : Graph) (operation : Operation) (p : String)
    (x y : String × Nat) (a : String × Value) (x' : String × Nat)
    (hR : x.1 = p ++ y.1 ∧ x.2 = y.2) (h : attribStep hdr graph operation x a = some x') :
    ∃ y', attribStep hdr graph operation y a = some y'
      ∧ (x'.1 = p ++ y'.1 ∧ x'.2 = y'.2) := by
  simp only [attribStep, Option.bind_eq_bind, Option.bind_eq_some, Option.pure_def,
    Option.some.injEq] at h
  obtain ⟨d, hd, h⟩ := h
  subst h
  obtain ⟨h1, h2⟩ := hR
  simp only [attribStep, hd, Option.bind_eq_bind, Option.some_bind, Option.pure_def]
  refine ⟨_, rfl, ?_, ?_⟩
  · simp only [h1, h2, String.append_assoc]
  · simp only [h2]

theorem attribLoop_lockstep (graph : Graph) (operation : Operation) (p : String)
    (x y x' : String × Nat) (hR : x.1 = p ++ y.1 ∧ x.2 = y.2)
    (h : attribLoop hdr graph operation x = some x') :
    ∃ y', attribLoop hdr graph operation y = some y' ∧ (x'.1 = p ++ y'.1 ∧ x'.2 = y'.2) := by
  unfold attribLoop at h ⊢
  by_cases hr : operation.name ≠ "reshape"
  · rw [if_pos hr] at h ⊢
    exact foldlM_lockstep (attribStep hdr graph operation)
      (fun x y => x.1 = p ++ y.1 ∧ x.2 = y.2)
      (fun a b o a' => attribStep_lockstep graph operation p a b o a') _ _ _ _ hR h
  · rw [if_neg hr] at h ⊢
    simp only [Option.pure_def, Option.some.injEq] at h
    subst h
    exact ⟨y, rfl, hR⟩

theorem callOutput_lockstep (graph : Graph) (p : String) (x y : Gen × Nat)
    (o : String × Value) (x' : Gen × Nat)
    (hR : x.1.op_list = y.1.op_list ∧ x.1.fwd_text = p ++ y.1.fwd_text ∧ x.2 = y.2)
    (h : callOutput graph x o = some x') :
    ∃ y', callOutput graph y o = some y'
      ∧ (x'.1.op_list = y'.1.op_list ∧ x'.1.fwd_text = p ++ y'.1.fwd_text ∧ x'.2 = y'.2) := by
  simp only [callOutput, Option.bind_eq_bind, Option.bind_eq_some, Option.pure_def,
    Option.some.injEq] at h
  obtain ⟨id, hid, tensor, ht, h⟩ := h
  subst h
  obtain ⟨h1, h2, h3⟩ := hR
  simp only [callOutput, hid, ht, Option.bind_eq_bind, Option.some_bind, Option.pure_def]
  refine ⟨_, rfl, ?_, ?_, ?_⟩
  · dsimp only
    split <;> exact h1
  · simp only [h1, h2, h3, String.append_assoc]
  · simp only [h3]

theorem callOutput_load (graph : Graph) (x x' : Gen × Nat) (o : String × Value)
    (h : callOutput graph x o = some x') : x'.1.load = x.1.load := by
  simp only [callOutput, Option.bind_eq_bind, Option.bind_eq_some, Option.pure_def,
    Option.some.injEq] at h
  obtain ⟨_, _, _, _, h⟩ := h
  subst h
  dsimp only
  split <;> rfl

/-- Any other operation leaves the load buffer as it is and appends its call
statement to the call buffer. -/
theorem callOp_effect (graph : Graph) (s s' : Gen) (operation : Operation)
    (hop : isLoadOp operation = false) (h : emitOperation hdr graph s operation = some s') :
    s'.load = s.load
    ∧ ∃ t, callStatement hdr graph s.op_list operation = some t
        ∧ s'.fwd_text = s.fwd_text ++ t := by
  have hne : operation.name ≠ "external" ∧ operation.name ≠ "variable" := by
    simpa [isLoadOp] using hop
  unfold emitOperation at h
  rw [if_neg hne.1, if_neg hne.2] at h
  unfold callStatement
  simp only [emitCall, Option.bind_eq_bind, Option.bind_eq_some, Option.pure_def,
    Option.some.injEq] at h
  obtain ⟨ins, hins, att, hatt, out, hout, h⟩ := h
  subst h
  obtain ⟨atte, hatte, ha1, ha2⟩ := attribLoop_lockstep graph operation s.fwd_text
    (s.fwd_text ++ "        " ++ operation.name ++ " (" ++ ins.1, ins.2)
    ((freshGen s.op_list).fwd_text ++ "        " ++ operation.name ++ " (" ++ ins.1, ins.2)
    att ⟨by simp [freshGen, String.append_assoc], rfl⟩ hatt
  obtain ⟨oute, houte, _, ho2, _⟩ := foldlM_lockstep (callOutput graph)
    (fun x y => x.1.op_list = y.1.op_list ∧ x.1.fwd_text = s.fwd_text ++ y.1.fwd_text
      ∧ x.2 = y.2)
    (fun a b o a' => callOutput_lockstep graph s.fwd_text a b o a')
    operation.outputs ({ s with fwd_text := att.1 }, att.2)
    ({ freshGen s.op_list with fwd_text := atte.1 }, atte.2) out
    ⟨rfl, ha1, ha2⟩ hout
  have hload := foldlM_invariant (callOutput graph) (fun a b => b.1.load = a.1.load)
    (fun _ => rfl) (fun _ _ _ hab hbc => hbc.trans hab)
    (fun a o b hb => callOutput_load graph a b o hb) _ _ _ hout
  refine ⟨hload, oute.1.fwd_text ++ ");" ++ "\n", ?_, ?_⟩
  · have hins' : inputLoop hdr (freshGen s.op_list).op_list operation 0 operation.inputs
        = some ins := hins
    simp only [emitCall, hins', hatte, houte, Option.bind_eq_bind, Option.some_bind,
      Option.pure_def, Option.map_some']
  · simp only [ho2, String.append_assoc]

/-- The emission loop appends to the call buffer the call statements of the
operations of its last branch and to the load buffer the load statements of the
`external` and `variable` operations, each in operation order. -/
theorem emitOperations_buffers (graph : Graph) (K : List String) (ops : List Operation) :
    ∀ (s s' : Gen), s.op_list = K → ops.foldlM (emitOperation hdr graph) s = some s' →
      ∃ calls loads,
        List.Forall₂ (fun op t => callStatement hdr graph K op = some t)
          (ops.filter (fun op => !isLoadOp op)) calls
        ∧ List.Forall₂ (fun op t => loadStatements hdr graph K op = some t)
          (ops.filter isLoadOp) loads
        ∧ s'.fwd_text = s.fwd_text ++ String.join calls
        ∧ s'.load = s.load ++ String.join loads := by
  induction ops with
  | nil =>
    intro s s' _ h
    simp only [List.foldlM_nil, Option.pure_def, Option.some.injEq] at h
    subst h
    exact ⟨[], [], by simp, by simp, by simp [join_nil], by simp [join_nil]⟩
  | cons op ops ih =>
    intro s s' hK h
    simp only [List.foldlM_cons, Option.bind_eq_bind, Option.bind_eq_some] at h
    obtain ⟨m, hm, hrest⟩ := h
    have hmK : m.op_list = K := (emitOperation_op_list graph s m op hm).trans hK
    obtain ⟨calls, loads, hc, hl, hf, hld⟩ := ih m s' hmK hrest
    cases hop : isLoadOp op with
    | true =>
      obtain ⟨h1, t, ht, h2⟩ := loadOp_effect graph s m op hop hm
      rw [hK] at ht
      refine ⟨calls, t :: loads, ?_, ?_, ?_, ?_⟩
      · simpa [List.filter_cons, hop] using hc
      · simpa [List.filter_cons, hop] using ⟨ht, hl⟩
      · rw [hf, h1]
      · rw [hld, h2, join_cons, String.append_assoc]
    | false =>
      obtain ⟨h1, t, ht, h2⟩ := callOp_effect graph s m op hop hm
      rw [hK] at ht
      refine ⟨t :: calls, loads, ?_, ?_, ?_, ?_⟩
      · simpa [List.filter_cons, hop] using ⟨ht, hc⟩
      · simpa [List.filter_cons, hop] using hl
      · rw [hf, h2, join_cons, String.append_assoc]
      · rw [hld, h1]

/-- The claim C7, amended: when generation completes, the statements of
`Forward` in the `.adb` section are exactly the call statements of the
operations named neither `external` nor `variable`, in operation order; the
load statements of the `external` and `variable` operations are not among
them: in operation order they make up the load buffer, which the runner prints
between `begin` and the call of `Forward`. -/
theorem C7_body_call_statements (graph : Graph) (s : Gen) (h : emitAll hdr graph = some s) :
    ∃ calls loads,
      List.Forall₂ (fun op t => callStatement hdr graph (buildOpList graph) op = some t)
        (graph.operations.filter (fun op => !isLoadOp op)) calls
      ∧ List.Forall₂ (fun op t => loadStatements hdr graph (buildOpList graph) op = some t)
        (graph.operations.filter isLoadOp) loads
      ∧ adbUnit graph s = adbHead graph ++ String.join calls ++ adbTail graph
      ∧ runDriver s = "begin\n" ++ String.join loads ++ "    Forward;\n" := by
  obtain ⟨calls, loads, hc, hl, hf, hld⟩ :=
    emitOperations_buffers graph (buildOpList graph) graph.operations (initGen graph) s rfl h
  refine ⟨calls, loads, hc, hl, ?_, ?_⟩
  · simp [adbUnit, hf, initGen]
  · simp [runDriver, hld, initGen, String.append_assoc]

/-- The claim C7 fails as stated: for a graph whose only operation is an
`external`, `Forward` has no statement at all; the load statement of the
operation is in the load buffer, printed in the runner. -/
theorem C7_counterexample_load_not_in_body :
    externalGraph.operations.length = 1
    ∧ (emitAll sampleHeader externalGraph).map (fun s => (s.fwd_text, s.load))
      = some ("", "    external (\"x\", x);\n")
    ∧ (emitAll sampleHeader externalGraph).map (adbUnit externalGraph)
      = some (adbHead externalGraph ++ adbTail externalGraph)
    ∧ (emitAll sampleHeader externalGraph).map (adbUnit externalGraph)
      ≠ some (adbHead externalGraph ++ "    external (\"x\", x);\n"
          ++ adbTail externalGraph) := by
  decide

/-! ### Instances of the conditional statements -/

/-- Evidence for C2: a `conv` on a tensor of rank 4 writes two zeros. -/
theorem C2_empty_array_zero_tuple_witness :
    (convOnX.inputs = [("input", .identifier "x")]
      ∧ sampleGraph.tensorsAt "x"
          = some { name := "x", dtype := "scalar", shape := [1, 3, 8, 8] }
      ∧ "size" ≠ "border" ∧ "size" ≠ "padding" ∧ "size" ≠ "stride" ∧ "size" ≠ "dilation")
    ∧ param_description sampleHeader sampleGraph convOnX "size" (.array [])
      = some "size => (0, 0)" :=
  ⟨⟨rfl, rfl, by decide, by decide, by decide, by decide⟩,
    (C2_empty_array_zero_tuple sampleGraph convOnX "size" "input" "x" []
      { name := "x", dtype := "scalar", shape := [1, 3, 8, 8] } rfl rfl
      (by decide) (by decide) (by decide) (by decide) (by decide) (by decide)).1⟩

/-- Evidence for C3: the three symbolic defaults for an operation on the
tensor `x` of `sampleGraph`. -/
theorem C3_empty_array_symbolic_default_witness :
    (poolOnX.inputs = [("input", .identifier "x")]
      ∧ sampleGraph.tensorsAt "x"
          = some { name := "x", dtype := "scalar", shape := [1, 3, 8, 8] })
    ∧ param_description sampleHeader sampleGraph poolOnX "padding" (.array [])
        = some "padding => Padding_Auto"
    ∧ param_description sampleHeader sampleGraph poolOnX "stride" (.array [])
        = some "stride => Default_Stride" :=
  ⟨⟨rfl, rfl⟩,
    (C3_empty_array_symbolic_default sampleGraph poolOnX "input" "x" []
      { name := "x", dtype := "scalar", shape := [1, 3, 8, 8] } rfl rfl).1,
    (C3_empty_array_symbolic_default sampleGraph poolOnX "input" "x" []
      { name := "x", dtype := "scalar", shape := [1, 3, 8, 8] } rfl rfl).2.1⟩

/-- Evidence for C4: `axis = 1` is written as 2. -/
theorem C4_integer_attribute_witness :
    ("axis" ≠ "border" ∧ inIntegerRange sampleHeader.integerBits (1 + 1))
    ∧ param_description sampleHeader sampleGraph poolOnX "axis" (.integer 1) = some "axis => 2" :=
  ⟨⟨by decide, by decide⟩,
    C4_integer_attribute sampleGraph poolOnX "axis" 1 (by decide) (fun _ => by decide)⟩

/-- Evidence for C5: `axes = [0, 2]` is written as `(1, 3)`. -/
theorem C5_nonempty_array_attribute_witness :
    ("axes" ≠ "border" ∧ [Value.integer 0, Value.integer 2] = [0, 2].map Value.integer
      ∧ ∀ e ∈ [(0 : Int), 2], inIntegerRange sampleHeader.integerBits (e + 1))
    ∧ param_description sampleHeader sampleGraph poolOnX "axes" (.array [.integer 0, .integer 2])
        = some "axes => (1, 3)" :=
  ⟨⟨by decide, rfl, by decide⟩,
    (C5_nonempty_array_attribute sampleGraph poolOnX "axes" [.integer 0, .integer 2] [0, 2]
      (by decide) (by simp) (fun _ => ⟨rfl, by decide⟩)).1⟩

/-- Evidence for C6: the `variable` of `variableGraph`. -/
theorem C6_variable_statements_witness :
    (variableW.name = "variable" ∧ variableW.attribsGet "label" = .string "w1"
      ∧ variableGraph.tensorsAt "w" = some { name := "w", dtype := "scalar", shape := [5] })
    ∧ ∃ s', emitOperation sampleHeader variableGraph (initGen variableGraph) variableW = some s'
      ∧ s'.load = "    variable (\"w1\", w);\n"
      ∧ s'.declarations = "    w: Real_Vector (1..5);\n" :=
  ⟨⟨rfl, rfl, rfl⟩,
    C6_variable_statements variableGraph (initGen variableGraph) variableW "w1"
      [{ name := "w", dtype := "scalar", shape := [5] }] rfl rfl
      (List.Forall₂.cons ⟨"w", rfl, rfl⟩ List.Forall₂.nil)⟩

/-- Evidence for C7: generation completes on `mixedGraph`. -/
theorem C7_body_call_statements_witness :
    emitAll sampleHeader mixedGraph = some mixedGen
    ∧ ∃ calls loads,
      List.Forall₂
        (fun op t =>
          callStatement sampleHeader mixedGraph (buildOpList mixedGraph) op = some t)
        (mixedGraph.operations.filter (fun op => !isLoadOp op)) calls
      ∧ List.Forall₂
        (fun op t => loadStatements sampleHeader mixedGraph (buildOpList mixedGraph) op = some t)
        (mixedGraph.operations.filter isLoadOp) loads
      ∧ adbUnit mixedGraph mixedGen
          = adbHead mixedGraph ++ String.join calls ++ adbTail mixedGraph
      ∧ runDriver mixedGen = "begin\n" ++ String.join loads ++ "    Forward;\n" :=
  ⟨by decide, C7_body_call_statements mixedGraph mixedGen (by decide)⟩

/-- Evidence for C8: after the whole pass on `mixedGraph` the tensor name
`add` is emitted as `add_0`. -/
theorem C8_tensor_id_known_names_witness :
    mixedGraph.operations.foldlM (emitOperation sampleHeader mixedGraph) (initGen mixedGraph)
      = some mixedGen
    ∧ mixedGen.op_list = buildOpList mixedGraph
    ∧ tensor_id mixedGen.op_list "add" = "add_0" :=
  ⟨by decide, @C8_tensor_id_known_names sampleHeader mixedGraph mixedGraph.operations
    mixedGen "add" (by decide)⟩

/-! ### Attribute formatter and value renderer -/

/-- The claim C19: for the attribute `border` a string value `s` is written as
`border => Border_Mode_s`, whatever the graph and the operation; the rule comes
first, so that for every value the result is decided by the string accessor
alone and no rule of the variant is consulted. -/
theorem C19_border_rule (graph : Graph) (op : Operation) :
    (∀ s, param_description hdr graph op "border" (.string s)
        = some ("border => Border_Mode_" ++ s))
    ∧ ∀ v, param_description hdr graph op "border" v
        = (v.string?).map (fun s => "border => Border_Mode_" ++ s) := by
  constructor
  · intro s
    simp [param_description, Value.string?]
  · intro v
    cases v <;> simp [param_description, Value.string?]

/-- The claim C18: for an attribute name other than `border`, `axis`,
`axis_start` and `axes`, and a value that is not an array or tuple of fewer
than two elements, the attribute formatter writes the attribute name, ` => `
and the text of the value renderer. -/
theorem C18_formatter_agrees_with_renderer (graph : Graph) (op : Operation) (attr : String)
    (value : Value) (hb : attr ≠ "border") (ha : attr ≠ "axis")
    (hs : attr ≠ "axis_start") (hx : attr ≠ "axes") (hv : value.generic = true) :
    param_description hdr graph op attr value = some (attr ++ " => " ++ render value) := by
  have hlong : ∀ items : List Value, 2 ≤ items.length →
      arrayDescription hdr graph op attr items = some ("(" ++ renderItems 0 items ++ ")") := by
    intro items h2
    match items, h2 with
    | _ :: _ :: _, _ =>
      simp [arrayDescription, itemsDescription_other attr hx, renderItems_eq_sepLoop]
  unfold param_description
  rw [if_neg hb]
  cases value with
  | none => simp [render]
  | string s => simp [render]
  | identifier s => simp [render]
  | logical b => simp [render]
  | integer v => simp [render, ha, hs]
  | scalar x => simp [render]
  | array items =>
    have h2 : 2 ≤ items.length := by simpa [Value.generic] using hv
    simp [render, hlong items h2]
  | tuple items =>
    have h2 : 2 ≤ items.length := by simpa [Value.generic] using hv
    simp [render, hlong items h2]

/-- Evidence for C18: the attribute `size = [3, 4]`. -/
theorem C18_formatter_agrees_with_renderer_witness :
    ("size" ≠ "border" ∧ "size" ≠ "axis" ∧ "size" ≠ "axis_start" ∧ "size" ≠ "axes"
      ∧ (Value.array [.integer 3, .integer 4]).generic = true)
    ∧ param_description sampleHeader sampleGraph poolOnX "size" (.array [.integer 3, .integer 4])
      = some "size => (3, 4)" :=
  ⟨⟨by decide, by decide, by decide, by decide, rfl⟩,
    C18_formatter_agrees_with_renderer sampleGraph poolOnX "size"
      (.array [.integer 3, .integer 4]) (by decide) (by decide) (by decide) (by decide) rfl⟩

/-- The claim C11 at the scalar 1000000.0: both the value renderer and the
attribute formatter append `.0` to the stream's text `1e+06`; the result
`1e+06.0` is not of the form digits `.0`.  The scalars 2.0 and 2.5 are written
as `2.0` and `2.5`. -/
theorem C11_scalar_million_not_a_literal :
    render (.scalar scalarMillion) = "1e+06.0"
    ∧ param_description hdr sampleGraph poolOnX "alpha" (.scalar scalarMillion)
        = some "alpha => 1e+06.0"
    ∧ digitsDotZero "1e+06.0" = false
    ∧ render (.scalar scalarTwo) = "2.0" ∧ digitsDotZero "2.0" = true
    ∧ render (.scalar scalarTwoAndHalf) = "2.5" := by
  have h : param_description hdr sampleGraph poolOnX "alpha" (.scalar scalarMillion)
      = param_description sampleHeader sampleGraph poolOnX "alpha" (.scalar scalarMillion) :=
    rfl
  rw [h]
  decide

/-! ### Option loop -/

/-- The claim C20 at the argument list `nnef2ada net.nnef --stdlib lib.nnef`
with a readable file `lib.nnef`: the loop calls `read_file` on the text
`--stdlib` itself, reports that this file is not found, leaves `stdlib` empty
and reports `lib.nnef` as an unrecognized option. -/
theorem C20_stdlib_reads_option_name :
    oneLibrary "lib.nnef" = some "fragment f() -> ()"
    ∧ optionLoop oneLibrary ["nnef2ada", "net.nnef", "--stdlib", "lib.nnef"]
      = some { stdlib := "",
               cerr := "file not found: --stdlib\nUnrecognized option: lib.nnef; ignoring\n" }
    := by
  decide

/-! ### Effects of the output loops -/

theorem mem_setInsert (x y : String) (l : List String) :
    y ∈ setInsert x l ↔ y = x ∨ y ∈ l := by
  induction l with
  | nil => simp [setInsert]
  | cons a l ih =>
    unfold setInsert
    split
    · simp
    · split
      · rename_i h
        subst h
        simp
      · simp only [List.mem_cons, ih]
        tauto

theorem externalOutputs_effect (graph : Graph) (operation : Operation)
    (hname : operation.name = "external")
    (outputs : List (String × Value)) (ts : List Tensor)
    (houts : List.Forall₂
      (fun o t => ∃ id, o.2 = Value.identifier id ∧ graph.tensorsAt id = some t) outputs ts)
    (s : Gen) :
    ∃ s', outputs.foldlM (externalOutput graph operation) s = some s'
      ∧ s'.op_list = s.op_list
      ∧ s'.load = s.load ++ String.join (ts.map (fun t =>
          "    external (\"" ++ t.name ++ "\", " ++ tensor_id s.op_list t.name ++ ");\n"))
      ∧ s'.external_types
          = ts.foldl (fun acc t => setInsert (tensor_typename t) acc) s.external_types
      ∧ s'.declarations = s.declarations ∧ s'.fwd_decl = s.fwd_decl
      ∧ s'.fwd_text = s.fwd_text ∧ s'.variable_types = s.variable_types
      ∧ s'.output_types = s.output_types := by
  induction houts generalizing s with
  | nil => exact ⟨s, by simp [join_nil]⟩
  | @cons o t outputs ts hot _ ih =>
    obtain ⟨id, hid, ht⟩ := hot
    have e1 : ("    external (\"" : String) = "    " ++ "external" ++ " (\"" := by decide
    have e2 : (");\n" : String) = ");" ++ "\n" := by decide
    obtain ⟨s', hs', hop, hload, hext, hd, hf, hft, hv, ho⟩ := ih
      { s with
        load := s.load ++ ("    " ++ operation.name ++ " (\"" ++ t.name ++ "\", "
          ++ tensor_id s.op_list t.name ++ ");") ++ "\n"
        external_types := setInsert (tensor_typename t) s.external_types
        all_types := setInsert (tensor_typename t) s.all_types }
    refine ⟨s', ?_, hop, ?_, ?_, hd, hf, hft, hv, ho⟩
    · simp [externalOutput, hid, Value.identifier?, ht, hs']
    · simp only [hload, List.map_cons, join_cons, hname, e1, e2, String.append_assoc]
    · simp only [hext, List.foldl_cons]

/-- The claim C17: an `external` operation whose outputs name tensors of the
graph appends one load statement per output tensor (the operation name, the
tensor name in double quotes, the resolved tensor name, `);`) to the load
buffer, inserts the type name of each into the external-types registry, and
leaves the declarations buffer, the forward-declaration buffer, the call
buffer and the variable-types and output-types registries as they are. -/
theorem C17_external_frame (graph : Graph) (s : Gen) (operation : Operation)
    (ts : List Tensor) (hname : operation.name = "external")
    (houts : List.Forall₂
      (fun o t => ∃ id, o.2 = Value.identifier id ∧ graph.tensorsAt id = some t)
      operation.outputs ts) :
    ∃ s', emitOperation hdr graph s operation = some s'
      ∧ s'.load = s.load ++ String.join (ts.map (fun t =>
          "    external (\"" ++ t.name ++ "\", " ++ tensor_id s.op_list t.name ++ ");\n"))
      ∧ s'.external_types
          = ts.foldl (fun acc t => setInsert (tensor_typename t) acc) s.external_types
      ∧ s'.declarations = s.declarations ∧ s'.fwd_decl = s.fwd_decl
      ∧ s'.fwd_text = s.fwd_text ∧ s'.variable_types = s.variable_types
      ∧ s'.output_types = s.output_types := by
  obtain ⟨s', hs', _, h⟩ :=
    externalOutputs_effect graph operation hname operation.outputs ts houts s
  exact ⟨s', by simp [emitOperation, hname, hs'], h⟩

/-- Evidence for C17: the `external` of `externalGraph`. -/
theorem C17_external_frame_witness :
    (externalX.name = "external"
      ∧ externalGraph.tensorsAt "x" = some { name := "x", dtype := "scalar", shape := [2, 3] })
    ∧ ∃ s', emitOperation sampleHeader externalGraph (initGen externalGraph) externalX = some s'
      ∧ s'.load = "    external (\"x\", x);\n"
      ∧ s'.external_types = ["Real_Matrix"]
      ∧ s'.declarations = "" ∧ s'.fwd_decl = ""
      ∧ s'.fwd_text = "" ∧ s'.variable_types = []
      ∧ s'.output_types = [] :=
  ⟨⟨rfl, rfl⟩,
    C17_external_frame externalGraph (initGen externalGraph) externalX
      [{ name := "x", dtype := "scalar", shape := [2, 3] }] rfl
      (List.Forall₂.cons ⟨"x", rfl, rfl⟩ List.Forall₂.nil)⟩

/-- The claim C12: the output loop of a call statement, run on outputs that
name tensors of the graph, appends for each output the fragment
`p => resolve(id)` to the call buffer (after `", "` unless it is the first
fragment of the statement); for an output that is not a graph output it
appends one forward declaration and leaves the output-types registry as it is,
for a graph output it appends no forward declaration and inserts the type
name into the output-types registry. -/
theorem C12_output_loop (graph : Graph) (outs : List (String × String))
    (ts : List Tensor)
    (houts : List.Forall₂ (fun o t => graph.tensorsAt o.2 = some t) outs ts)
    (s : Gen) (i : Nat) :
    ∃ s', (outs.map (fun o => (o.1, Value.identifier o.2))).foldlM (callOutput graph) (s, i)
        = some (s', i + outs.length)
      ∧ s'.fwd_text = s.fwd_text
          ++ sepLoop (fun o => o.1 ++ " => " ++ tensor_id s.op_list o.2) i outs
      ∧ s'.fwd_decl = s.fwd_decl ++ String.join ((outs.zip ts).map (fun ot =>
          if ot.1.2 ∈ graph.outputs then ""
          else "        " ++ tensor_declaration s.op_list ot.2 ++ "\n"))
      ∧ s'.output_types = (outs.zip ts).foldl (fun acc ot =>
          if ot.1.2 ∈ graph.outputs then setInsert (tensor_typename ot.2) acc else acc)
          s.output_types
      ∧ s'.op_list = s.op_list ∧ s'.declarations = s.declarations ∧ s'.load = s.load
      ∧ s'.external_types = s.external_types ∧ s'.variable_types = s.variable_types := by
  induction houts generalizing s i with
  | nil => exact ⟨s, by simp [join_nil, sepLoop]⟩
  | @cons o t outs ts hot _ ih =>
    by_cases hmem : o.2 ∈ graph.outputs
    · obtain ⟨s', hs', hft, hfd, hot', hop, hd, hl, he, hv⟩ := ih
        { s with
          output_types := setInsert (tensor_typename t) s.output_types
          fwd_text := s.fwd_text ++ (if i ≠ 0 then ", " else "") ++ o.1 ++ " => "
            ++ tensor_id s.op_list o.2
          all_types := setInsert (tensor_typename t) s.all_types } (i + 1)
      refine ⟨s', ?_, ?_, ?_, ?_, hop, hd, hl, he, hv⟩
      · have harith : i + (o :: outs).length = i + 1 + outs.length := by
          simp only [List.length_cons]; omega
        rw [harith, ← hs']
        simp only [List.map_cons, List.foldlM_cons, callOutput, Value.identifier?, hot,
          Option.bind_eq_bind, Option.some_bind, Option.pure_def, hmem, if_true, if_false]
      · simp only [hft, sepLoop, String.append_assoc]
      · simp [hfd, join_cons, hmem]
      · simp [hot', hmem]
    · obtain ⟨s', hs', hft, hfd, hot', hop, hd, hl, he, hv⟩ := ih
        { s with
          fwd_decl := s.fwd_decl ++ "        " ++ tensor_declaration s.op_list t ++ "\n"
          fwd_text := s.fwd_text ++ (if i ≠ 0 then ", " else "") ++ o.1 ++ " => "
            ++ tensor_id s.op_list o.2
          all_types := setInsert (tensor_typename t) s.all_types } (i + 1)
      refine ⟨s', ?_, ?_, ?_, ?_, hop, hd, hl, he, hv⟩
      · have harith : i + (o :: outs).length = i + 1 + outs.length := by
          simp only [List.length_cons]; omega
        rw [harith, ← hs']
        simp only [List.map_cons, List.foldlM_cons, callOutput, Value.identifier?, hot,
          Option.bind_eq_bind, Option.some_bind, Option.pure_def, hmem, if_true, if_false]
      · simp only [hft, sepLoop, String.append_assoc]
      · simp [hfd, join_cons, hmem, String.append_assoc]
      · simp [hot', hmem]

/-! ### The declaration buffers -/

theorem variableOutput_decl (graph : Graph) (operation : Operation) (s s' : Gen)
    (o : String × Value) (h : variableOutput graph operation s o = some s') :
    ∃ t, (o.2.identifier?).bind graph.tensorsAt = some t
      ∧ s'.declarations = s.declarations ++ declarationLine "    " s.op_list t
      ∧ s'.fwd_decl = s.fwd_decl ∧ s'.op_list = s.op_list := by
  simp only [variableOutput, Option.bind_eq_bind, Option.bind_eq_some, Option.pure_def,
    Option.some.injEq] at h
  obtain ⟨id, hid, tensor, ht, text, _, h⟩ := h
  subst h
  refine ⟨tensor, by simp [hid, ht], ?_, rfl, rfl⟩
  simp only [declarationLine, String.append_assoc]

theorem variableOutputs_decl (graph : Graph) (operation : Operation) (K : List String)
    (outs : List (String × Value)) :
    ∀ (s s' : Gen), s.op_list = K → outs.foldlM (variableOutput graph operation) s = some s' →
      s'.declarations = s.declarations
          ++ String.join ((outputTensors graph outs).map (declarationLine "    " K))
      ∧ (outputTensors graph outs).length = outs.length
      ∧ s'.fwd_decl = s.fwd_decl ∧ s'.op_list = K := by
  induction outs with
  | nil =>
    intro s s' hK h
    simp only [List.foldlM_nil, Option.pure_def, Option.some.injEq] at h
    subst h
    simp [outputTensors, join_nil, hK]
  | cons o outs ih =>
    intro s s' hK h
    simp only [List.foldlM_cons, Option.bind_eq_bind, Option.bind_eq_some] at h
    obtain ⟨m, hm, hrest⟩ := h
    obtain ⟨t, ht, hd, hf, hop⟩ := variableOutput_decl graph operation s m o hm
    obtain ⟨h1, h2, h3, h4⟩ := ih m s' (hop.trans hK) hrest
    have hcons : outputTensors graph (o :: outs) = t :: outputTensors graph outs := by
      simp [outputTensors, List.filterMap_cons, ht]
    refine ⟨?_, ?_, h3.trans hf, h4⟩
    · rw [h1, hd, hcons, hK, List.map_cons, join_cons, String.append_assoc]
    · rw [hcons, List.length_cons, List.length_cons, h2]

theorem externalOutput_decl (graph : Graph) (operation : Operation) (s s' : Gen)
    (o : String × Value) (h : externalOutput graph operation s o = some s') :
    ∃ t, (o.2.identifier?).bind graph.tensorsAt = some t
      ∧ s'.declarations = s.declarations ∧ s'.fwd_decl = s.fwd_decl := by
  simp only [externalOutput, Option.bind_eq_bind, Option.bind_eq_some, Option.pure_def,
    Option.some.injEq] at h
  obtain ⟨id, hid, tensor, ht, h⟩ := h
  subst h
  exact ⟨tensor, by simp [hid, ht], rfl, rfl⟩

theorem externalOutputs_decl (graph : Graph) (operation : Operation)
    (outs : List (String × Value)) :
    ∀ (s s' : Gen), outs.foldlM (externalOutput graph operation) s = some s' →
      s'.declarations = s.declarations
      ∧ (outputTensors graph outs).length = outs.length
      ∧ s'.fwd_decl = s.fwd_decl := by
  induction outs with
  | nil =>
    intro s s' h
    simp only [List.foldlM_nil, Option.pure_def, Option.some.injEq] at h
    subst h
    simp [outputTensors]
  | cons o outs ih =>
    intro s s' h
    simp only [List.foldlM_cons, Option.bind_eq_bind, Option.bind_eq_some] at h
    obtain ⟨m, hm, hrest⟩ := h
    obtain ⟨t, ht, hd, hf⟩ := externalOutput_decl graph operation s m o hm
    obtain ⟨h1, h2, h3⟩ := ih m s' hrest
    have hcons : outputTensors graph (o :: outs) = t :: outputTensors graph outs := by
      simp [outputTensors, List.filterMap_cons, ht]
    refine ⟨h1.trans hd, ?_, h3.trans hf⟩
    rw [hcons, List.length_cons, List.length_cons, h2]

theorem callOutput_decl (graph : Graph) (acc acc' : Gen × Nat) (o : String × Value)
    (h : callOutput graph acc o = some acc') :
    ∃ t, (o.2.identifier?).bind graph.tensorsAt = some t
      ∧ acc'.1.fwd_decl = acc.1.fwd_decl
          ++ String.join ((outputTensors graph ([o].filter (notGraphOutput graph))).map
              (declarationLine "        " acc.1.op_list))
      ∧ acc'.1.declarations = acc.1.declarations ∧ acc'.1.op_list = acc.1.op_list := by
  simp only [callOutput, Option.bind_eq_bind, Option.bind_eq_some, Option.pure_def,
    Option.some.injEq] at h
  obtain ⟨id, hid, tensor, ht, h⟩ := h
  subst h
  refine ⟨tensor, by simp [hid, ht], ?_, ?_, ?_⟩
  · by_cases hmem : id ∈ graph.outputs
    · simp [hmem, outputTensors, notGraphOutput, hid, join_nil]
    · simp [hmem, outputTensors, notGraphOutput, hid, ht, join_cons, join_nil,
        declarationLine, String.append_assoc]
  · dsimp only
    split <;> rfl
  · dsimp only
    split <;> rfl

theorem callOutputs_decl (graph : Graph) (K : List String) (outs : List (String × Value)) :
    ∀ (acc acc' : Gen × Nat), acc.1.op_list = K →
      outs.foldlM (callOutput graph) acc = some acc' →
      acc'.1.fwd_decl = acc.1.fwd_decl
          ++ String.join ((outputTensors graph (outs.filter (notGraphOutput graph))).map
              (declarationLine "        " K))
      ∧ (outputTensors graph outs).length = outs.length
      ∧ acc'.1.declarations = acc.1.declarations ∧ acc'.1.op_list = K := by
  induction outs with
  | nil =>
    intro acc acc' hK h
    simp only [List.foldlM_nil, Option.pure_def, Option.some.injEq] at h
    subst h
    simp [outputTensors, join_nil, hK]
  | cons o outs ih =>
    intro acc acc' hK h
    simp only [List.foldlM_cons, Option.bind_eq_bind, Option.bind_eq_some] at h
    obtain ⟨m, hm, hrest⟩ := h
    obtain ⟨t, ht, hf, hd, hop⟩ := callOutput_decl graph acc m o hm
    obtain ⟨h1, h2, h3, h4⟩ := ih m acc' (hop.trans hK) hrest
    have hcons : outputTensors graph (o :: outs) = t :: outputTensors graph outs := by
      simp [outputTensors, List.filterMap_cons, ht]
    have hsplit : outputTensors graph ((o :: outs).filter (notGraphOutput graph))
        = outputTensors graph ([o].filter (notGraphOutput graph))
          ++ outputTensors graph (outs.filter (notGraphOutput graph)) := by
      have : (o :: outs).filter (notGraphOutput graph)
          = [o].filter (notGraphOutput graph) ++ outs.filter (notGraphOutput graph) := by
        rw [← List.filter_append]
        rfl
      rw [this, outputTensors, outputTensors, outputTensors, List.filterMap_append]
    refine ⟨?_, ?_, h3.trans hd, h4⟩
    · rw [h1, hf, hsplit, hK, List.map_append, join_append, String.append_assoc]
    · rw [hcons, List.length_cons, List.length_cons, h2]

theorem emitCall_decl (graph : Graph) (K : List String) (s s' : Gen) (operation : Operation)
    (hK : s.op_list = K) (h : emitCall hdr graph s operation = some s') :
    s'.fwd_decl = s.fwd_decl
        ++ String.join ((outputTensors graph
            (operation.outputs.filter (notGraphOutput graph))).map
            (declarationLine "        " K))
    ∧ (outputTensors graph operation.outputs).length = operation.outputs.length
    ∧ s'.declarations = s.declarations := by
  simp only [emitCall, Option.bind_eq_bind, Option.bind_eq_some, Option.pure_def,
    Option.some.injEq] at h
  obtain ⟨ins, _, att, _, out, hout, h⟩ := h
  subst h
  obtain ⟨h1, h2, h3, _⟩ := callOutputs_decl graph K operation.outputs
    ({ s with fwd_text := att.1 }, att.2) out hK hout
  exact ⟨h1, h2, h3⟩

/-- The emission loop appends to the declarations buffer the declarations of
the outputs of the `variable` operations, and to the forward-declaration
buffer those of the outputs, other than graph outputs, of the operations that
are neither `external` nor `variable`, each in operation order; every output
of every operation names a tensor of the graph. -/
theorem emitOperations_decl (graph : Graph) (K : List String) (ops : List Operation) :
    ∀ (s s' : Gen), s.op_list = K → ops.foldlM (emitOperation hdr graph) s = some s' →
      s'.declarations = s.declarations
          ++ String.join ((((ops.filter (fun op => op.name = "variable")).map
              (fun op => outputTensors graph op.outputs)).flatten).map
              (declarationLine "    " K))
      ∧ s'.fwd_decl = s.fwd_decl
          ++ String.join ((((ops.filter (fun op => !isLoadOp op)).map
              (fun op => outputTensors graph
                (op.outputs.filter (notGraphOutput graph)))).flatten).map
              (declarationLine "        " K))
      ∧ ∀ op ∈ ops, (outputTensors graph op.outputs).length = op.outputs.length := by
  induction ops with
  | nil =>
    intro s s' _ h
    simp only [List.foldlM_nil, Option.pure_def, Option.some.injEq] at h
    subst h
    simp [join_nil]
  | cons op ops ih =>
    intro s s' hK h
    simp only [List.foldlM_cons, Option.bind_eq_bind, Option.bind_eq_some] at h
    obtain ⟨m, hm, hrest⟩ := h
    have hmK : m.op_list = K := (emitOperation_op_list graph s m op hm).trans hK
    obtain ⟨hd, hf, hall⟩ := ih m s' hmK hrest
    unfold emitOperation at hm
    by_cases hext : op.name = "external"
    · rw [if_pos hext] at hm
      obtain ⟨h1, h2, h3⟩ := externalOutputs_decl graph op op.outputs s m hm
      have hv : ¬ op.name = "variable" := by rw [hext]; decide
      have hl : isLoadOp op = true := by simp [isLoadOp, hext]
      refine ⟨?_, ?_, ?_⟩
      · rw [hd, h1, List.filter_cons_of_neg (by simpa using hv)]
      · rw [hf, h3, List.filter_cons_of_neg (by simp [hl])]
      · intro op' hop'
        rcases List.mem_cons.1 hop' with h | h
        · rw [h]; exact h2
        · exact hall op' h
    · rw [if_neg hext] at hm
      by_cases hvar : op.name = "variable"
      · rw [if_pos hvar] at hm
        obtain ⟨h1, h2, h3, _⟩ := variableOutputs_decl graph op K op.outputs s m hK hm
        have hl : isLoadOp op = true := by simp [isLoadOp, hvar]
        refine ⟨?_, ?_, ?_⟩
        · rw [hd, h1, List.filter_cons_of_pos (by simpa using hvar), List.map_cons,
            List.flatten_cons, List.map_append, join_append, String.append_assoc]
        · rw [hf, h3, List.filter_cons_of_neg (by simp [hl])]
        · intro op' hop'
          rcases List.mem_cons.1 hop' with h | h
          · rw [h]; exact h2
          · exact hall op' h
      · rw [if_neg hvar] at hm
        obtain ⟨h1, h2, h3⟩ := emitCall_decl graph K s m op hK hm
        have hl : isLoadOp op = false := by simp [isLoadOp, hext, hvar]
        refine ⟨?_, ?_, ?_⟩
        · rw [hd, h3, List.filter_cons_of_neg (by simpa using hvar)]
        · rw [hf, h1, List.filter_cons_of_pos (by simp [hl]), List.map_cons,
            List.flatten_cons, List.map_append, join_append, String.append_assoc]
        · intro op' hop'
          rcases List.mem_cons.1 hop' with h | h
          · rw [h]; exact h2
          · exact hall op' h

/-- The loop printing one declaration per listed identifier finds a tensor for
every identifier and prints their declaration lines in order. -/
theorem declarationLines_eq (graph : Graph) (K : List String) (ids : List String)
    (text : String) (h : declarationLines graph K ids = some text) :
    text = String.join ((ids.filterMap graph.tensorsAt).map (declarationLine "    " K))
    ∧ (ids.filterMap graph.tensorsAt).length = ids.length := by
  have key : ∀ (ids : List String) (acc text : String),
      ids.foldlM (fun acc id => do
        let tensor ← graph.tensorsAt id
        pure (acc ++ "    " ++ tensor_declaration K tensor ++ "\n")) acc = some text →
      text = acc ++ String.join ((ids.filterMap graph.tensorsAt).map (declarationLine "    " K))
      ∧ (ids.filterMap graph.tensorsAt).length = ids.length := by
    intro ids
    induction ids with
    | nil =>
      intro acc text h
      simp only [List.foldlM_nil, Option.pure_def, Option.some.injEq] at h
      subst h
      simp [join_nil]
    | cons id ids ih =>
      intro acc text h
      simp only [List.foldlM_cons, Option.bind_eq_bind, Option.bind_eq_some, Option.pure_def,
        Option.some.injEq] at h
      obtain ⟨m, ⟨t, ht, hm⟩, hrest⟩ := h
      subst hm
      obtain ⟨h1, h2⟩ := ih _ text hrest
      have hcons : (id :: ids).filterMap graph.tensorsAt = t :: ids.filterMap graph.tensorsAt := by
        simp [List.filterMap_cons, ht]
      refine ⟨?_, ?_⟩
      · rw [h1, hcons, List.map_cons, join_cons]
        simp only [declarationLine, String.append_assoc]
      · rw [hcons, List.length_cons, List.length_cons, h2]
  have := key ids "" text h
  simpa using this

/-- The claim C13: when generation reaches the end of the `.ads` section, the
section is its fixed head, then one declaration per entry of `graph.inputs`,
one per entry of `graph.outputs`, one per output of each `variable` operation
and one forward declaration per output, other than a graph output, of each
operation that is neither `external` nor `variable`, each group in order, then
`procedure Forward;` and the closing line; every listed identifier and every
operation output names a tensor of the graph, so none is left out. -/
theorem C13_declarations_unit (graph : Graph) (s : Gen) (text : String)
    (hs : emitAll hdr graph = some s) (ht : adsUnit graph s = some text) :
    text = adsHead graph
      ++ String.join ((graph.inputs.filterMap graph.tensorsAt).map
          (declarationLine "    " (buildOpList graph)))
      ++ String.join ((graph.outputs.filterMap graph.tensorsAt).map
          (declarationLine "    " (buildOpList graph)))
      ++ String.join ((variableTensors graph).map
          (declarationLine "    " (buildOpList graph)))
      ++ String.join ((forwardTensors graph).map
          (declarationLine "        " (buildOpList graph)))
      ++ adsTail graph
    ∧ (graph.inputs.filterMap graph.tensorsAt).length = graph.inputs.length
    ∧ (graph.outputs.filterMap graph.tensorsAt).length = graph.outputs.length
    ∧ ∀ op ∈ graph.operations,
        (outputTensors graph op.outputs).length = op.outputs.length := by
  have hK : s.op_list = buildOpList graph :=
    emitOperations_op_list graph graph.operations (initGen graph) s hs
  obtain ⟨hd, hf, hall⟩ :=
    emitOperations_decl graph (buildOpList graph) graph.operations (initGen graph) s rfl hs
  simp only [adsUnit, Option.bind_eq_bind, Option.bind_eq_some, Option.pure_def,
    Option.some.injEq] at ht
  obtain ⟨ins, hins, outs, houts, ht⟩ := ht
  rw [hK] at hins houts
  obtain ⟨hi1, hi2⟩ := declarationLines_eq graph _ _ _ hins
  obtain ⟨ho1, ho2⟩ := declarationLines_eq graph _ _ _ houts
  refine ⟨?_, hi2, ho2, hall⟩
  have hd' : s.declarations = String.join ((variableTensors graph).map
      (declarationLine "    " (buildOpList graph))) := by
    rw [hd]; simp [initGen, variableTensors]
  have hf' : s.fwd_decl = String.join ((forwardTensors graph).map
      (declarationLine "        " (buildOpList graph))) := by
    rw [hf]; simp [initGen, forwardTensors]
  rw [← ht, ← hi1, ← ho1, ← hd', ← hf']
  simp only [adsHead, adsTail, String.append_assoc]

/-! ### The statements of `Forward` -/

/-- A call statement is the indentation, the operation name, the arguments
between parentheses, a semicolon and the end of line. -/
theorem callStatement_shape (graph : Graph) (K : List String) (operation : Operation)
    (t : String) (h : callStatement hdr graph K operation = some t) :
    ∃ args, t = "        " ++ operation.name ++ " (" ++ args ++ ");" ++ "\n" := by
  simp only [callStatement, Option.map_eq_some', emitCall, Option.bind_eq_bind,
    Option.bind_eq_some, Option.pure_def, Option.some.injEq] at h
  obtain ⟨s', ⟨ins, _, att, hatt, out, hout, hs'⟩, ht⟩ := h
  subst hs'
  subst ht
  obtain ⟨t1, ht1⟩ := attribLoop_append graph operation _ _ hatt
  obtain ⟨u, hu⟩ := callOutputs_append graph _ _ _ hout
  simp only at ht1 hu
  refine ⟨ins.1 ++ t1 ++ u, ?_⟩
  simp only [hu, ht1, freshGen, String.empty_append, String.append_assoc]

/-- The claim C16: when the emission loop completes, the statements of
`Forward` are the call statements of the operations named neither `external`
nor `variable`, one for each and in the order of `graph.operations`; each is
the indentation, the name of its operation, the arguments between parentheses
and `;`. -/
theorem C16_one_call_per_operation (graph : Graph) (s : Gen)
    (h : emitAll hdr graph = some s) :
    ∃ calls,
      List.Forall₂
        (fun op t => callStatement hdr graph (buildOpList graph) op = some t
          ∧ ∃ args, t = "        " ++ op.name ++ " (" ++ args ++ ");" ++ "\n")
        (graph.operations.filter (fun op => !isLoadOp op)) calls
      ∧ s.fwd_text = String.join calls
      ∧ adbUnit graph s = adbHead graph ++ String.join calls ++ adbTail graph := by
  obtain ⟨calls, _, hc, _, hf, _⟩ :=
    emitOperations_buffers graph (buildOpList graph) graph.operations (initGen graph) s rfl h
  have hf' : s.fwd_text = String.join calls := by simpa [initGen] using hf
  refine ⟨calls, ?_, hf', by simp [adbUnit, hf']⟩
  exact hc.imp (fun op t hop =>
    ⟨hop, callStatement_shape graph (buildOpList graph) op t hop⟩)

/-- Evidence for C16: the emission loop completes on `mixedGraph`. -/
theorem C16_one_call_per_operation_witness :
    emitAll sampleHeader mixedGraph = some mixedGen
    ∧ ∃ calls,
      List.Forall₂
        (fun op t => callStatement sampleHeader mixedGraph (buildOpList mixedGraph) op = some t
          ∧ ∃ args, t = "        " ++ op.name ++ " (" ++ args ++ ");" ++ "\n")
        (mixedGraph.operations.filter (fun op => !isLoadOp op)) calls
      ∧ mixedGen.fwd_text = String.join calls
      ∧ adbUnit mixedGraph mixedGen
          = adbHead mixedGraph ++ String.join calls ++ adbTail mixedGraph :=
  ⟨by decide, C16_one_call_per_operation mixedGraph mixedGen (by decide)⟩

/-- Evidence for C12: an output that is a graph output and one that is not, as
the third and fourth fragments of a statement. -/
theorem C12_output_loop_witness :
    (swapGraph.tensorsAt "s" = some { name := "s", dtype := "scalar", shape := [2, 3] }
      ∧ swapGraph.tensorsAt "t" = some { name := "t", dtype := "scalar", shape := [2, 3] })
    ∧ ∃ s', ([("z", "s"), ("q", "t")].map
          (fun o => (o.1, Value.identifier o.2))).foldlM (callOutput swapGraph)
          (initGen swapGraph, 2) = some (s', 4)
      ∧ s'.fwd_text = ", z => s, q => t"
      ∧ s'.fwd_decl = "        t: Real_Matrix (1..2, 1..3);\n"
      ∧ s'.output_types = ["Real_Matrix"] :=
  ⟨⟨rfl, rfl⟩,
    (C12_output_loop swapGraph [("z", "s"), ("q", "t")]
      [{ name := "s", dtype := "scalar", shape := [2, 3] },
       { name := "t", dtype := "scalar", shape := [2, 3] }]
      (List.Forall₂.cons rfl (List.Forall₂.cons rfl List.Forall₂.nil))
      (initGen swapGraph) 2).imp
      (fun _ h => ⟨h.1, h.2.1, h.2.2.1, h.2.2.2.1⟩)⟩

set_option maxRecDepth 8000 in
/-- Evidence for C13: the `.ads` section printed for `chainGraph`. -/
theorem C13_declarations_unit_witness :
    (emitAll sampleHeader chainGraph = some chainGen
      ∧ adsUnit chainGraph chainGen
          = some (adsHead chainGraph ++ chainDeclarations ++ adsTail chainGraph))
    ∧ adsHead chainGraph ++ chainDeclarations ++ adsTail chainGraph
      = adsHead chainGraph
        ++ String.join ((chainGraph.inputs.filterMap chainGraph.tensorsAt).map
            (declarationLine "    " (buildOpList chainGraph)))
        ++ String.join ((chainGraph.outputs.filterMap chainGraph.tensorsAt).map
            (declarationLine "    " (buildOpList chainGraph)))
        ++ String.join ((variableTensors chainGraph).map
            (declarationLine "    " (buildOpList chainGraph)))
        ++ String.join ((forwardTensors chainGraph).map
            (declarationLine "        " (buildOpList chainGraph)))
        ++ adsTail chainGraph :=
  ⟨⟨by decide, by decide⟩,
    (@C13_declarations_unit sampleHeader chainGraph chainGen
      (adsHead chainGraph ++ chainDeclarations ++ adsTail chainGraph)
      (by decide) (by decide)).1⟩

theorem charsLt_iff (l₁ l₂ : List Char) : charsLt l₁ l₂ = true ↔ l₁ < l₂ := by
  induction l₁ generalizing l₂ with
  | nil =>
    cases l₂ with
    | nil =>
      simp only [charsLt, Bool.false_eq_true, false_iff]
      intro h
      cases h
    | cons b bs =>
      simp only [charsLt, true_iff]
      exact List.Lex.nil
  | cons a as ih =>
    cases l₂ with
    | nil =>
      simp only [charsLt, Bool.false_eq_true, false_iff]
      intro h
      cases h
    | cons b bs =>
      simp only [charsLt]
      by_cases hab : a < b
      · simp only [hab, if_true, true_iff]
        exact List.Lex.rel hab
      · by_cases hba : b < a
        · simp only [hab, hba, if_false, if_true, Bool.false_eq_true, false_iff]
          intro h
          cases h with
          | cons h' => exact lt_irrefl a hba
          | rel h' => exact hab h'
        · have heq : a = b := le_antisymm (not_lt.1 hba) (not_lt.1 hab)
          subst heq
          simp only [hab, if_false, ih]
          constructor
          · intro h
            exact List.Lex.cons h
          · intro h
            cases h with
            | cons h' => exact h'
            | rel h' => exact absurd h' hab

/-- The comparison of the registries is the lexicographic order of strings. -/
theorem stringLt_iff (a b : String) : stringLt a b = true ↔ a < b := by
  unfold stringLt
  rw [charsLt_iff, String.lt_iff_toList_lt]
  rfl

/-- Insertion keeps a registry strictly ascending. -/
theorem setInsert_sorted (x : String) (l : List String)
    (h : l.Pairwise (fun a b => a < b)) : (setInsert x l).Pairwise (fun a b => a < b) := by
  induction l with
  | nil => simp [setInsert]
  | cons y ys ih =>
    have hy := List.pairwise_cons.1 h
    unfold setInsert
    split
    · rename_i hxy
      have hxy' : x < y := (stringLt_iff x y).1 hxy
      refine List.pairwise_cons.2 ⟨?_, h⟩
      intro z hz
      rcases List.mem_cons.1 hz with hz | hz
      · rw [hz]; exact hxy'
      · exact lt_trans hxy' (hy.1 z hz)
    · rename_i hxy
      split
      · exact h
      · rename_i hne
        have hyx : y < x := by
          have h1 : ¬ x < y := fun hlt => hxy ((stringLt_iff x y).2 hlt)
          rcases lt_trichotomy x y with h2 | h2 | h2
          · exact absurd h2 h1
          · exact absurd h2 hne
          · exact h2
        refine List.pairwise_cons.2 ⟨?_, ih hy.2⟩
        intro z hz
        rcases (mem_setInsert x z ys).1 hz with hz | hz
        · rw [hz]; exact hyx
        · exact hy.1 z hz

/-- A registry that every round of a loop keeps ascending and extends by the
names the round contributes is, after the loop, ascending and extended by the
names all rounds contribute. -/
theorem registry_fold {σ α : Type} (f : σ → α → Option σ) (reg : σ → List String)
    (C : α → String → Prop)
    (hstep : ∀ s a s', f s a = some s' →
      ((reg s).Pairwise (fun a b => a < b) → (reg s').Pairwise (fun a b => a < b))
      ∧ ∀ T, T ∈ reg s' ↔ T ∈ reg s ∨ C a T) :
    ∀ (l : List α) (s s' : σ), l.foldlM f s = some s' →
      ((reg s).Pairwise (fun a b => a < b) → (reg s').Pairwise (fun a b => a < b))
      ∧ ∀ T, T ∈ reg s' ↔ T ∈ reg s ∨ ∃ a ∈ l, C a T := by
  intro l
  induction l with
  | nil =>
    intro s s' h
    simp only [List.foldlM_nil, Option.pure_def, Option.some.injEq] at h
    subst h
    simp
  | cons a l ih =>
    intro s s' h
    simp only [List.foldlM_cons, Option.bind_eq_bind, Option.bind_eq_some] at h
    obtain ⟨m, hm, hrest⟩ := h
    obtain ⟨hs1, hm1⟩ := hstep s a m hm
    obtain ⟨hs2, hm2⟩ := ih m s' hrest
    refine ⟨fun h0 => hs2 (hs1 h0), ?_⟩
    intro T
    rw [hm2 T, hm1 T]
    simp only [List.mem_cons, exists_eq_or_imp]
    tauto

theorem externalOutput_registries (graph : Graph) (operation : Operation) (s s' : Gen)
    (o : String × Value) (h : externalOutput graph operation s o = some s') :
    ((s.external_types.Pairwise (fun a b => a < b)
        → s'.external_types.Pairwise (fun a b => a < b))
      ∧ ∀ T, T ∈ s'.external_types ↔ T ∈ s.external_types ∨ outputTypeName graph o = some T)
    ∧ s'.variable_types = s.variable_types ∧ s'.output_types = s.output_types := by
  simp only [externalOutput, Option.bind_eq_bind, Option.bind_eq_some, Option.pure_def,
    Option.some.injEq] at h
  obtain ⟨id, hid, tensor, ht, h⟩ := h
  subst h
  refine ⟨⟨fun h0 => setInsert_sorted _ _ h0, ?_⟩, rfl, rfl⟩
  intro T
  simp only [mem_setInsert, outputTypeName, hid, ht, Option.some_bind, Option.map_some',
    Option.some.injEq]
  constructor
  · rintro (h | h)
    · exact Or.inr h.symm
    · exact Or.inl h
  · rintro (h | h)
    · exact Or.inr h
    · exact Or.inl h.symm

theorem variableOutput_registries (graph : Graph) (operation : Operation) (s s' : Gen)
    (o : String × Value) (h : variableOutput graph operation s o = some s') :
    ((s.variable_types.Pairwise (fun a b => a < b)
        → s'.variable_types.Pairwise (fun a b => a < b))
      ∧ ∀ T, T ∈ s'.variable_types ↔ T ∈ s.variable_types ∨ outputTypeName graph o = some T)
    ∧ s'.external_types = s.external_types ∧ s'.output_types = s.output_types := by
  simp only [variableOutput, Option.bind_eq_bind, Option.bind_eq_some, Option.pure_def,
    Option.some.injEq] at h
  obtain ⟨id, hid, tensor, ht, text, _, h⟩ := h
  subst h
  refine ⟨⟨fun h0 => setInsert_sorted _ _ h0, ?_⟩, rfl, rfl⟩
  intro T
  simp only [mem_setInsert, outputTypeName, hid, ht, Option.some_bind, Option.map_some',
    Option.some.injEq]
  constructor
  · rintro (h | h)
    · exact Or.inr h.symm
    · exact Or.inl h
  · rintro (h | h)
    · exact Or.inr h
    · exact Or.inl h.symm

theorem callOutput_registries (graph : Graph) (acc acc' : Gen × Nat)
    (o : String × Value) (h : callOutput graph acc o = some acc') :
    ((acc.1.output_types.Pairwise (fun a b => a < b)
        → acc'.1.output_types.Pairwise (fun a b => a < b))
      ∧ ∀ T, T ∈ acc'.1.output_types ↔ T ∈ acc.1.output_types
          ∨ (isGraphOutput graph o = true ∧ outputTypeName graph o = some T))
    ∧ acc'.1.external_types = acc.1.external_types
    ∧ acc'.1.variable_types = acc.1.variable_types := by
  simp only [callOutput, Option.bind_eq_bind, Option.bind_eq_some, Option.pure_def,
    Option.some.injEq] at h
  obtain ⟨id, hid, tensor, ht, h⟩ := h
  subst h
  by_cases hmem : id ∈ graph.outputs
  · refine ⟨⟨fun h0 => by simpa [hmem] using setInsert_sorted _ _ h0, ?_⟩,
      by simp [hmem], by simp [hmem]⟩
    intro T
    simp only [hmem, if_true, mem_setInsert, outputTypeName, isGraphOutput, hid, ht,
      Option.some_bind, Option.map_some', Option.some.injEq, decide_True, true_and]
    constructor
    · rintro (h | h)
      · exact Or.inr h.symm
      · exact Or.inl h
    · rintro (h | h)
      · exact Or.inr h
      · exact Or.inl h.symm
  · refine ⟨⟨fun h0 => by simpa [hmem] using h0, ?_⟩, by simp [hmem], by simp [hmem]⟩
    intro T
    simp [hmem, isGraphOutput, hid]

theorem externalOutputs_registries (graph : Graph) (operation : Operation)
    (outs : List (String × Value)) (s s' : Gen)
    (h : outs.foldlM (externalOutput graph operation) s = some s') :
    ((s.external_types.Pairwise (fun a b => a < b)
        → s'.external_types.Pairwise (fun a b => a < b))
      ∧ ∀ T, T ∈ s'.external_types ↔ T ∈ s.external_types
          ∨ ∃ o ∈ outs, outputTypeName graph o = some T)
    ∧ s'.variable_types = s.variable_types ∧ s'.output_types = s.output_types := by
  refine ⟨registry_fold (externalOutput graph operation) (fun s => s.external_types)
    (fun o T => outputTypeName graph o = some T)
    (fun a o b hb => (externalOutput_registries graph operation a b o hb).1) outs s s' h, ?_⟩
  exact foldlM_invariant (externalOutput graph operation)
    (fun a b => b.variable_types = a.variable_types ∧ b.output_types = a.output_types)
    (fun _ => ⟨rfl, rfl⟩) (fun _ _ _ hab hbc => ⟨hbc.1.trans hab.1, hbc.2.trans hab.2⟩)
    (fun a o b hb => (externalOutput_registries graph operation a b o hb).2) outs s s' h

theorem variableOutputs_registries (graph : Graph) (operation : Operation)
    (outs : List (String × Value)) (s s' : Gen)
    (h : outs.foldlM (variableOutput graph operation) s = some s') :
    ((s.variable_types.Pairwise (fun a b => a < b)
        → s'.variable_types.Pairwise (fun a b => a < b))
      ∧ ∀ T, T ∈ s'.variable_types ↔ T ∈ s.variable_types
          ∨ ∃ o ∈ outs, outputTypeName graph o = some T)
    ∧ s'.external_types = s.external_types ∧ s'.output_types = s.output_types := by
  refine ⟨registry_fold (variableOutput graph operation) (fun s => s.variable_types)
    (fun o T => outputTypeName graph o = some T)
    (fun a o b hb => (variableOutput_registries graph operation a b o hb).1) outs s s' h, ?_⟩
  exact foldlM_invariant (variableOutput graph operation)
    (fun a b => b.external_types = a.external_types ∧ b.output_types = a.output_types)
    (fun _ => ⟨rfl, rfl⟩) (fun _ _ _ hab hbc => ⟨hbc.1.trans hab.1, hbc.2.trans hab.2⟩)
    (fun a o b hb => (variableOutput_registries graph operation a b o hb).2) outs s s' h

theorem emitCall_registries (graph : Graph) (s s' : Gen) (operation : Operation)
    (h : emitCall hdr graph s operation = some s') :
    ((s.output_types.Pairwise (fun a b => a < b)
        → s'.output_types.Pairwise (fun a b => a < b))
      ∧ ∀ T, T ∈ s'.output_types ↔ T ∈ s.output_types
          ∨ ∃ o ∈ operation.outputs,
              isGraphOutput graph o = true ∧ outputTypeName graph o = some T)
    ∧ s'.external_types = s.external_types ∧ s'.variable_types = s.variable_types := by
  simp only [emitCall, Option.bind_eq_bind, Option.bind_eq_some, Option.pure_def,
    Option.some.injEq] at h
  obtain ⟨ins, _, att, _, out, hout, h⟩ := h
  subst h
  refine ⟨registry_fold (callOutput graph) (fun acc => acc.1.output_types)
    (fun o T => isGraphOutput graph o = true ∧ outputTypeName graph o = some T)
    (fun a o b hb => (callOutput_registries graph a b o hb).1) operation.outputs
    ({ s with fwd_text := att.1 }, att.2) out hout, ?_⟩
  exact foldlM_invariant (callOutput graph)
    (fun a b => b.1.external_types = a.1.external_types
      ∧ b.1.variable_types = a.1.variable_types)
    (fun _ => ⟨rfl, rfl⟩) (fun _ _ _ hab hbc => ⟨hbc.1.trans hab.1, hbc.2.trans hab.2⟩)
    (fun a o b hb => (callOutput_registries graph a b o hb).2) operation.outputs
    ({ s with fwd_text := att.1 }, att.2) out hout

/-- One operation keeps the three stub registries ascending; it adds the type
names of its outputs to the external-types registry when it is an `external`,
to the variable-types registry when it is a `variable`, and otherwise adds
those of its outputs that are graph outputs to the output-types registry. -/
theorem emitOperation_registries (graph : Graph) (s s' : Gen) (operation : Operation)
    (h : emitOperation hdr graph s operation = some s') :
    ((s.external_types.Pairwise (fun a b => a < b)
        → s'.external_types.Pairwise (fun a b => a < b))
      ∧ ∀ T, T ∈ s'.external_types ↔ T ∈ s.external_types
          ∨ (operation.name = "external"
              ∧ ∃ o ∈ operation.outputs, outputTypeName graph o = some T))
    ∧ ((s.variable_types.Pairwise (fun a b => a < b)
        → s'.variable_types.Pairwise (fun a b => a < b))
      ∧ ∀ T, T ∈ s'.variable_types ↔ T ∈ s.variable_types
          ∨ (operation.name = "variable"
              ∧ ∃ o ∈ operation.outputs, outputTypeName graph o = some T))
    ∧ ((s.output_types.Pairwise (fun a b => a < b)
        → s'.output_types.Pairwise (fun a b => a < b))
      ∧ ∀ T, T ∈ s'.output_types ↔ T ∈ s.output_types
          ∨ (isLoadOp operation = false
              ∧ ∃ o ∈ operation.outputs,
                  isGraphOutput graph o = true ∧ outputTypeName graph o = some T)) := by
  unfold emitOperation at h
  by_cases hext : operation.name = "external"
  · rw [if_pos hext] at h
    obtain ⟨⟨hs, hm⟩, hv, ho⟩ := externalOutputs_registries graph operation _ s s' h
    have hnv : ¬ operation.name = "variable" := by rw [hext]; decide
    have hl : isLoadOp operation = true := by simp [isLoadOp, hext]
    refine ⟨⟨hs, fun T => by simp [hm T, hext]⟩, ⟨fun h0 => hv ▸ h0, fun T => ?_⟩,
      ⟨fun h0 => ho ▸ h0, fun T => ?_⟩⟩
    · simp [hv, hnv]
    · simp [ho, hl]
  · rw [if_neg hext] at h
    by_cases hvar : operation.name = "variable"
    · rw [if_pos hvar] at h
      obtain ⟨⟨hs, hm⟩, he, ho⟩ := variableOutputs_registries graph operation _ s s' h
      have hl : isLoadOp operation = true := by simp [isLoadOp, hvar]
      refine ⟨⟨fun h0 => he ▸ h0, fun T => ?_⟩, ⟨hs, fun T => by simp [hm T, hvar]⟩,
        ⟨fun h0 => ho ▸ h0, fun T => ?_⟩⟩
      · simp [he, hext]
      · simp [ho, hl]
    · rw [if_neg hvar] at h
      obtain ⟨⟨hs, hm⟩, he, hv⟩ := emitCall_registries graph s s' operation h
      have hl : isLoadOp operation = false := by simp [isLoadOp, hext, hvar]
      refine ⟨⟨fun h0 => he ▸ h0, fun T => ?_⟩, ⟨fun h0 => hv ▸ h0, fun T => ?_⟩,
        ⟨hs, fun T => by simp [hm T, hl]⟩⟩
      · simp [he, hext]
      · simp [hv, hvar]

theorem mem_outputTensors_map (graph : Graph) (outs : List (String × Value)) (T : String) :
    T ∈ (outputTensors graph outs).map tensor_typename
      ↔ ∃ o ∈ outs, outputTypeName graph o = some T := by
  simp only [outputTensors, outputTypeName, List.mem_map, List.mem_filterMap,
    Option.map_eq_some']
  constructor
  · rintro ⟨t, ⟨o, ho, hot⟩, hT⟩
    exact ⟨o, ho, t, hot, hT⟩
  · rintro ⟨o, ho, t, hot, hT⟩
    exact ⟨t, ⟨o, ho, hot⟩, hT⟩

/-- Two strictly ascending lists with the same members are equal. -/
theorem ascending_unique (l₁ l₂ : List String)
    (h₁ : l₁.Pairwise (fun a b => a < b)) (h₂ : l₂.Pairwise (fun a b => a < b))
    (hmem : ∀ T, T ∈ l₁ ↔ T ∈ l₂) : l₁ = l₂ := by
  have n₁ : l₁.Nodup := h₁.imp (fun h => ne_of_lt h)
  have n₂ : l₂.Nodup := h₂.imp (fun h => ne_of_lt h)
  have hp : l₁.Perm l₂ := (List.perm_ext_iff_of_nodup n₁ n₂).2 hmem
  exact List.eq_of_perm_of_sorted hp h₁ h₂

/-- After the emission loop the three stub registries are strictly ascending
and hold the type names of the outputs of the `external` operations, of the
`variable` operations, and of the graph outputs among the outputs of the
remaining operations. -/
theorem emitAll_registries (graph : Graph) (s : Gen) (h : emitAll hdr graph = some s) :
    (s.external_types.Pairwise (fun a b => a < b)
      ∧ ∀ T, T ∈ s.external_types ↔ ∃ op ∈ graph.operations, op.name = "external"
          ∧ ∃ o ∈ op.outputs, outputTypeName graph o = some T)
    ∧ (s.variable_types.Pairwise (fun a b => a < b)
      ∧ ∀ T, T ∈ s.variable_types ↔ ∃ op ∈ graph.operations, op.name = "variable"
          ∧ ∃ o ∈ op.outputs, outputTypeName graph o = some T)
    ∧ (s.output_types.Pairwise (fun a b => a < b)
      ∧ ∀ T, T ∈ s.output_types ↔ ∃ op ∈ graph.operations, isLoadOp op = false
          ∧ ∃ o ∈ op.outputs, isGraphOutput graph o = true
              ∧ outputTypeName graph o = some T) := by
  obtain ⟨he1, he2⟩ := registry_fold (emitOperation hdr graph) (fun s => s.external_types)
    (fun op T => op.name = "external" ∧ ∃ o ∈ op.outputs, outputTypeName graph o = some T)
    (fun a o b hb => (emitOperation_registries graph a b o hb).1)
    graph.operations (initGen graph) s h
  obtain ⟨hv1, hv2⟩ := registry_fold (emitOperation hdr graph) (fun s => s.variable_types)
    (fun op T => op.name = "variable" ∧ ∃ o ∈ op.outputs, outputTypeName graph o = some T)
    (fun a o b hb => (emitOperation_registries graph a b o hb).2.1)
    graph.operations (initGen graph) s h
  obtain ⟨ho1, ho2⟩ := registry_fold (emitOperation hdr graph) (fun s => s.output_types)
    (fun op T => isLoadOp op = false ∧ ∃ o ∈ op.outputs,
      isGraphOutput graph o = true ∧ outputTypeName graph o = some T)
    (fun a o b hb => (emitOperation_registries graph a b o hb).2.2)
    graph.operations (initGen graph) s h
  refine ⟨⟨he1 (by simp [initGen]), fun T => ?_⟩, ⟨hv1 (by simp [initGen]), fun T => ?_⟩,
    ⟨ho1 (by simp [initGen]), fun T => ?_⟩⟩
  · simpa [initGen] using he2 T
  · simpa [initGen] using hv2 T
  · simpa [initGen] using ho2 T

theorem mem_selected_types (graph : Graph) (ops : List Operation) (p : Operation → Bool)
    (sel : Operation → List (String × Value)) (T : String) :
    T ∈ (((ops.filter p).map (fun op => outputTensors graph (sel op))).flatten).map
          tensor_typename
      ↔ ∃ op ∈ ops, p op = true ∧ ∃ o ∈ sel op, outputTypeName graph o = some T := by
  constructor
  · intro h
    obtain ⟨t, ht, hT⟩ := List.mem_map.1 h
    obtain ⟨l, hl, htl⟩ := List.mem_flatten.1 ht
    obtain ⟨op, hop, hopl⟩ := List.mem_map.1 hl
    obtain ⟨hop1, hop2⟩ := List.mem_filter.1 hop
    subst hopl
    exact ⟨op, hop1, hop2,
      (mem_outputTensors_map graph (sel op) T).1 (List.mem_map.2 ⟨t, htl, hT⟩)⟩
  · rintro ⟨op, hop1, hop2, ho⟩
    obtain ⟨t, ht, hT⟩ := List.mem_map.1 ((mem_outputTensors_map graph (sel op) T).2 ho)
    exact List.mem_map.2 ⟨t, List.mem_flatten.2
      ⟨_, List.mem_map.2 ⟨op, List.mem_filter.2 ⟨hop1, hop2⟩, rfl⟩, ht⟩, hT⟩

/-- The stubs of the runner when the emission loop completes: one `External`
stub per name of the external-types registry, one `Variable` stub per name of
the variable-types registry and one `Output` stub per name of the output-types
registry, in registry order.  Each registry is strictly ascending in the
lexicographic order of strings, so that it has no duplicate.  The first two
hold exactly the type names of the outputs of the `external` and of the
`variable` operations.  The third holds only type names of operation outputs
that are graph outputs, and all of them when no output of an `external` or
`variable` operation is a graph output.  The stubs are the same for any
reordering of the operations. -/
theorem runStubs_registries (graph : Graph) (s : Gen) (h : emitAll hdr graph = some s) :
    runStubs s
      = String.join (s.external_types.map
          (fun T => stub "External" ("Var_Name: String; Tensor: out " ++ T)))
        ++ String.join (s.variable_types.map
          (fun T => stub "Variable" ("Var_Name: String; Tensor: out " ++ T)))
        ++ String.join (s.output_types.map
          (fun T => stub "Output" ("Tensor: " ++ T ++ "; Var_Name: String")))
    ∧ (s.external_types.Pairwise (fun a b => a < b)
      ∧ ∀ T, T ∈ s.external_types ↔ T ∈ (externalTensors graph).map tensor_typename)
    ∧ (s.variable_types.Pairwise (fun a b => a < b)
      ∧ ∀ T, T ∈ s.variable_types ↔ T ∈ (variableTensors graph).map tensor_typename)
    ∧ (s.output_types.Pairwise (fun a b => a < b)
      ∧ (∀ T, T ∈ s.output_types → T ∈ (graphOutputTensors graph).map tensor_typename)
      ∧ ((∀ op ∈ graph.operations, isLoadOp op = true →
            ∀ o ∈ op.outputs, isGraphOutput graph o = false) →
          ∀ T, T ∈ (graphOutputTensors graph).map tensor_typename → T ∈ s.output_types))
    ∧ ∀ (graph' : Graph) (s' : Gen), graph'.tensors = graph.tensors →
        graph'.outputs = graph.outputs → graph'.operations.Perm graph.operations →
        emitAll hdr graph' = some s' → runStubs s' = runStubs s := by
  obtain ⟨⟨he1, he2⟩, ⟨hv1, hv2⟩, ⟨ho1, ho2⟩⟩ := emitAll_registries graph s h
  have hall : graphOutputTensors graph
      = ((graph.operations.filter (fun _ => true)).map (fun op =>
          outputTensors graph (op.outputs.filter (isGraphOutput graph)))).flatten := by
    simp [graphOutputTensors]
  refine ⟨rfl, ⟨he1, fun T => ?_⟩, ⟨hv1, fun T => ?_⟩,
    ⟨ho1, fun T => ?_, fun hload T => ?_⟩, ?_⟩
  · rw [he2 T, externalTensors,
      mem_selected_types graph graph.operations (fun op => op.name = "external")
        (fun op => op.outputs) T]
    simp
  · rw [hv2 T, variableTensors,
      mem_selected_types graph graph.operations (fun op => op.name = "variable")
        (fun op => op.outputs) T]
    simp
  · rw [ho2 T, hall,
      mem_selected_types graph graph.operations (fun _ => true)
        (fun op => op.outputs.filter (isGraphOutput graph)) T]
    rintro ⟨op, hop, _, o, ho, hg, hT⟩
    exact ⟨op, hop, rfl, o, List.mem_filter.2 ⟨ho, hg⟩, hT⟩
  · rw [ho2 T, hall,
      mem_selected_types graph graph.operations (fun _ => true)
        (fun op => op.outputs.filter (isGraphOutput graph)) T]
    rintro ⟨op, hop, _, o, ho, hT⟩
    obtain ⟨ho1', ho2'⟩ := List.mem_filter.1 ho
    have hl : isLoadOp op = false := by
      cases hlo : isLoadOp op with
      | false => rfl
      | true =>
        have := hload op hop hlo o ho1'
        rw [this] at ho2'
        cases ho2'
    exact ⟨op, hop, hl, o, ho1', ho2', hT⟩
  · intro graph' s' htensors houtputs hperm h'
    obtain ⟨⟨he1', he2'⟩, ⟨hv1', hv2'⟩, ⟨ho1', ho2'⟩⟩ := emitAll_registries graph' s' h'
    have hname : ∀ o, outputTypeName graph' o = outputTypeName graph o := by
      intro o
      simp [outputTypeName, Graph.tensorsAt, htensors]
    have hgo : ∀ o, isGraphOutput graph' o = isGraphOutput graph o := by
      intro o
      simp [isGraphOutput, houtputs]
    have hE : s'.external_types = s.external_types := by
      apply ascending_unique _ _ he1' he1
      intro T
      rw [he2' T, he2 T]
      simp only [hname, hperm.mem_iff]
    have hV : s'.variable_types = s.variable_types := by
      apply ascending_unique _ _ hv1' hv1
      intro T
      rw [hv2' T, hv2 T]
      simp only [hname, hperm.mem_iff]
    have hO : s'.output_types = s.output_types := by
      apply ascending_unique _ _ ho1' ho1
      intro T
      rw [ho2' T, ho2 T]
      simp only [hname, hgo, hperm.mem_iff]
    simp only [runStubs, hE, hV, hO]

/-- The first two branches of the emission loop call nothing that depends on
the header. -/
theorem emitOperation_load_header (header : Header) (graph : Graph) (s : Gen)
    (operation : Operation) (h : isLoadOp operation = true) :
    emitOperation hdr graph s operation = emitOperation header graph s operation := by
  simp only [isLoadOp, Bool.or_eq_true, decide_eq_true_eq] at h
  rcases h with h | h
  · simp [emitOperation, h]
  · by_cases he : operation.name = "external"
    · simp [emitOperation, he]
    · simp [emitOperation, he, h]

theorem emitOperations_load_header (header : Header) (graph : Graph)
    (ops : List Operation) (h : ∀ op ∈ ops, isLoadOp op = true) (s : Gen) :
    ops.foldlM (emitOperation hdr graph) s = ops.foldlM (emitOperation header graph) s := by
  induction ops generalizing s with
  | nil => rfl
  | cons op ops ih =>
    simp only [List.foldlM_cons,
      emitOperation_load_header header graph s op (h op (List.mem_cons_self op ops))]
    cases emitOperation header graph s op with
    | none => rfl
    | some s1 => exact ih (fun o ho => h o (List.mem_cons_of_mem op ho)) s1

/-- On a graph of `external` and `variable` operations only, the emission loop
does not depend on the header. -/
theorem emitAll_load_header (header : Header) (graph : Graph)
    (h : ∀ op ∈ graph.operations, isLoadOp op = true) :
    emitAll hdr graph = emitAll header graph :=
  emitOperations_load_header header graph graph.operations h (initGen graph)

set_option maxRecDepth 8000 in
/-- The claim C14 at a graph whose output `w` is produced directly by a
`variable`: `w` is an operation output that is a graph output, of type
`Real_Vector`, yet the output-types registry is empty and the runner has no
`Output` stub, only the `Variable` stub; the driver sequence still calls
`Output (w, "w")`. -/
theorem C14_graph_output_without_stub :
    (graphOutputTensors variableOutputGraph).map tensor_typename = ["Real_Vector"]
    ∧ (emitAll hdr variableOutputGraph).map
        (fun s => (s.external_types, s.variable_types, s.output_types))
      = some ([], ["Real_Vector"], [])
    ∧ (emitAll hdr variableOutputGraph).map runStubs
      = some (stub "Variable" "Var_Name: String; Tensor: out Real_Vector")
    ∧ outputCalls variableOutputGraph (buildOpList variableOutputGraph)
      = some "    Output (w, \"w\");\n"
    ∧ (generate hdr variableOutputGraph).isSome = true := by
  simp only [generate]
  rw [emitAll_load_header sampleHeader variableOutputGraph (by decide)]
  decide

/-! ### Collisions of emitted names -/

theorem append_suffix_cancel (a b s : String) (h : a ++ s = b ++ s) : a = b := by
  apply String.ext
  have h' := congrArg String.data h
  simp only [String.data_append] at h'
  exact List.append_cancel_right h'

theorem append_suffix_ne (n : String) : n ++ "_0" ≠ n := by
  intro h
  have h' := congrArg String.length h
  have h2 : "_0".length = 2 := by decide
  rw [String.length_append, h2] at h'
  omega

/-- Two distinct names are emitted under one name exactly when one is a known
operation name, the other is not, and the other is the first followed by
`_0`. -/
theorem tensor_id_eq_iff (K : List String) (a b : String) (hab : a ≠ b) :
    tensor_id K a = tensor_id K b
      ↔ (a ∈ K ∧ b ∉ K ∧ b = a ++ "_0") ∨ (b ∈ K ∧ a ∉ K ∧ a = b ++ "_0") := by
  unfold tensor_id
  by_cases ha : a ∈ K <;> by_cases hb : b ∈ K
  · simp only [ha, hb, if_true, not_true_eq_false, false_and, and_false, or_self, iff_false]
    intro h
    exact hab (append_suffix_cancel a b "_0" h)
  · simp only [ha, hb, if_true, if_false, not_false_eq_true, true_and, false_and, or_false]
    exact eq_comm
  · simp only [ha, hb, if_true, if_false, not_false_eq_true, true_and, false_and, false_or]
  · simp only [ha, hb, if_false, false_and, or_self, iff_false]
    exact hab

/-- The claim C25, amended: for distinct names, `tensor_id` gives the same
emitted name exactly when one of the two is a known operation name, the other
is not, and the other is the first followed by `_0`; hence the renaming is
injective on every set of names without a pair `(n, n_0)` with `n` known, and
two distinct names of a set are emitted under one name exactly when the set
has a pair `(n, n_0)` with `n` known and `n_0` not known. -/
theorem C25_tensor_id_collisions (K : List String) :
    (∀ a b, a ≠ b →
      (tensor_id K a = tensor_id K b
        ↔ (a ∈ K ∧ b ∉ K ∧ b = a ++ "_0") ∨ (b ∈ K ∧ a ∉ K ∧ a = b ++ "_0")))
    ∧ (∀ S : List String, (¬ ∃ n ∈ S, n ∈ K ∧ n ++ "_0" ∈ S) →
        ∀ a ∈ S, ∀ b ∈ S, tensor_id K a = tensor_id K b → a = b)
    ∧ (∀ S : List String,
        (∃ a ∈ S, ∃ b ∈ S, a ≠ b ∧ tensor_id K a = tensor_id K b)
          ↔ ∃ n ∈ S, n ∈ K ∧ n ++ "_0" ∈ S ∧ n ++ "_0" ∉ K) := by
  refine ⟨fun a b hab => tensor_id_eq_iff K a b hab, ?_, ?_⟩
  · intro S hS a ha b hb h
    by_contra hab
    rcases (tensor_id_eq_iff K a b hab).1 h with ⟨h1, _, h3⟩ | ⟨h1, _, h3⟩
    · exact hS ⟨a, ha, h1, h3 ▸ hb⟩
    · exact hS ⟨b, hb, h1, h3 ▸ ha⟩
  · intro S
    constructor
    · rintro ⟨a, ha, b, hb, hab, h⟩
      rcases (tensor_id_eq_iff K a b hab).1 h with ⟨h1, h2, h3⟩ | ⟨h1, h2, h3⟩
      · exact ⟨a, ha, h1, h3 ▸ hb, h3 ▸ h2⟩
      · exact ⟨b, hb, h1, h3 ▸ ha, h3 ▸ h2⟩
    · rintro ⟨n, hn, hnK, hmS, hmK⟩
      refine ⟨n, hn, n ++ "_0", hmS, fun h => append_suffix_ne n h.symm, ?_⟩
      exact (tensor_id_eq_iff K n (n ++ "_0") (fun h => append_suffix_ne n h.symm)).2
        (Or.inl ⟨hnK, hmK, rfl⟩)

/-- The claim C25 fails in its last clause: with the known names `add` and
`add_0`, the set of the two names `add` and `add_0` has a pair `(n, n_0)` with
`n` known, yet the two are emitted under the distinct names `add_0` and
`add_0_0`. -/
theorem C25_counterexample_both_known :
    "add" ∈ ["add", "add_0"] ∧ "add" ++ "_0" ∈ ["add", "add_0"]
    ∧ tensor_id ["add", "add_0"] "add" = "add_0"
    ∧ tensor_id ["add", "add_0"] "add_0" = "add_0_0"
    ∧ tensor_id ["add", "add_0"] "add" ≠ tensor_id ["add", "add_0"] "add_0" := by
  decide

/-! ### Defects met at concrete graphs -/

set_option maxRecDepth 8000 in
/-- The claim C22 at a graph whose output `w` is produced directly by a
`variable`: the `.ads` section declares `w` twice, once in the loop over
`graph.outputs` and once from the declarations buffer of the `variable`
branch; at a graph whose tensor `x` is both a graph input and a graph output,
`x` is declared twice as well. -/
theorem C22_variable_output_declared_twice :
    (emitAll hdr variableOutputGraph).bind (adsUnit variableOutputGraph)
      = some (adsHead variableOutputGraph
          ++ "    w: Real_Vector (1..5);\n" ++ "    w: Real_Vector (1..5);\n"
          ++ adsTail variableOutputGraph)
    ∧ (emitAll hdr passThroughGraph).bind (adsUnit passThroughGraph)
      = some (adsHead passThroughGraph
          ++ "    x: Real_Matrix (1..2, 1..3);\n" ++ "    x: Real_Matrix (1..2, 1..3);\n"
          ++ adsTail passThroughGraph) := by
  rw [emitAll_load_header sampleHeader variableOutputGraph (by decide),
    emitAll_load_header sampleHeader passThroughGraph (by decide)]
  decide

set_option maxRecDepth 8000 in
/-- The claim C23 at a graph whose output `w` is produced directly by a
`variable`: the output-types registry stays empty, and the runner printed has
the call `Output (w, "w");` but no `Output` stub. -/
theorem C23_output_call_without_stub :
    variableOutputGraph.outputs = ["w"]
    ∧ (variableOutputGraph.tensorsAt "w").map tensor_typename = some "Real_Vector"
    ∧ (emitAll hdr variableOutputGraph).map (fun s => s.output_types) = some []
    ∧ (emitAll hdr variableOutputGraph).bind (runUnit variableOutputGraph)
      = some ("-- net_run.adb\nwith net; use net;\nuse net.Real_Arrays;\n"
          ++ "procedure net_Run is\n"
          ++ stub "Variable" "Var_Name: String; Tensor: out Real_Vector"
          ++ "begin\n    variable (\"w1\", w);\n    Forward;\n    Output (w, \"w\");\n"
          ++ "end net_Run;\n") := by
  rw [emitAll_load_header sampleHeader variableOutputGraph (by decide)]
  decide

theorem sepLoop_append {α : Type} (f : α → String) (i : Nat) (A B : List α) :
    sepLoop f i (A ++ B) = sepLoop f i A ++ sepLoop f (i + A.length) B := by
  induction A generalizing i with
  | nil => simp [sepLoop]
  | cons a A ih =>
    have e : i + (a :: A).length = i + 1 + A.length := by
      simp only [List.length_cons]; omega
    rw [e]
    simp only [List.cons_append, sepLoop, ih (i + 1), String.append_assoc]
    rw [show A.append B = A ++ B from rfl, ih (i + 1)]

theorem sepLoop_map {α : Type} (f : α → String) (i : Nat) (xs : List α) :
    sepLoop f i xs = sepLoop id i (xs.map f) := by
  induction xs generalizing i with
  | nil => simp [sepLoop]
  | cons a xs ih => simp [sepLoop, ih]

/-- The input loop, started at index zero on all inputs, writes the input
fragments joined by `", "` and ends with the index at the number of inputs. -/
theorem inputLoop_zero (op_list : List String) (operation : Operation) :
    inputLoop hdr op_list operation 0 operation.inputs
      = some (String.intercalate ", " (inputFragments hdr op_list operation),
          operation.inputs.length)
    ∧ (inputFragments hdr op_list operation).length = operation.inputs.length := by
  unfold inputFragments
  rcases hin : operation.inputs with _ | ⟨input, _ | ⟨input1, rest⟩⟩
  · simp [inputLoop, String.intercalate]
  · simp [inputLoop, String.intercalate, String.intercalate.go]
  · have hsucc := @inputLoop_succ hdr op_list operation 0 (input1 :: rest)
    have hsucc2 := @inputLoop_succ hdr op_list operation 1 rest
    have hplain : inputLoop hdr op_list operation 0 (input :: input1 :: rest)
          = some (String.intercalate ", "
              ((input :: input1 :: rest).map (inputFragment hdr op_list)),
              (input :: input1 :: rest).length)
        ∨ ((operation.name = "add" ∨ operation.name = "mul")
            ∧ input.2.kind ≠ Kind.Identifier ∧ input1.2.kind = Kind.Identifier) := by
      by_cases hc : (operation.name = "add" ∨ operation.name = "mul")
          ∧ input.2.kind ≠ Kind.Identifier ∧ input1.2.kind = Kind.Identifier
      · exact Or.inr hc
      · left
        have hcond : ¬ ((operation.name = "add" ∨ operation.name = "mul") ∧ True
            ∧ input.2.kind ≠ Kind.Identifier ∧ 2 ≤ operation.inputs.length
            ∧ input1.2.kind = Kind.Identifier) := by
          rintro ⟨h1, _, h3, _, h5⟩
          exact hc ⟨h1, h3, h5⟩
        simp only [inputLoop]
        rw [if_neg hcond]
        simp only [zero_add] at hsucc
        simp [hsucc, intercalate_cons, Function.comp_def]
        omega
    obtain ⟨pB, v⟩ := input1
    cases v with
    | identifier id =>
      by_cases hc : (operation.name = "add" ∨ operation.name = "mul")
          ∧ input.2.kind ≠ Kind.Identifier
      · have h2 : 2 ≤ operation.inputs.length := by simp [hin]
        have hcond : (operation.name = "add" ∨ operation.name = "mul") ∧ True
            ∧ input.2.kind ≠ Kind.Identifier ∧ 2 ≤ operation.inputs.length
            ∧ (pB, Value.identifier id).2.kind = Kind.Identifier :=
          ⟨hc.1, trivial, hc.2, h2, rfl⟩
        simp only [if_pos hc]
        simp only [inputLoop]
        rw [if_pos hcond]
        simp [Value.identifier?, hsucc2, intercalate_cons, join_cons, Function.comp_def,
          String.append_assoc]
        omega
      · rcases hplain with h | h
        · simp only [if_neg hc]
          exact ⟨h, by simp⟩
        · exact absurd ⟨h.1, h.2.1⟩ hc
    | none => rcases hplain with h | h
              · exact ⟨h, by simp⟩
              · exact absurd h.2.2 (by simp [Value.kind])
    | string _ => rcases hplain with h | h
                  · exact ⟨h, by simp⟩
                  · exact absurd h.2.2 (by simp [Value.kind])
    | logical _ => rcases hplain with h | h
                   · exact ⟨h, by simp⟩
                   · exact absurd h.2.2 (by simp [Value.kind])
    | integer _ => rcases hplain with h | h
                   · exact ⟨h, by simp⟩
                   · exact absurd h.2.2 (by simp [Value.kind])
    | scalar _ => rcases hplain with h | h
                  · exact ⟨h, by simp⟩
                  · exact absurd h.2.2 (by simp [Value.kind])
    | array _ => rcases hplain with h | h
                 · exact ⟨h, by simp⟩
                 · exact absurd h.2.2 (by simp [Value.kind])
    | tuple _ => rcases hplain with h | h
                 · exact ⟨h, by simp⟩
                 · exact absurd h.2.2 (by simp [Value.kind])

/-- The attribute loop appends the formatted attributes, each after `", "`
unless it is the first fragment of the statement. -/
theorem attribSteps_text (graph : Graph) (operation : Operation)
    (attribs : List (String × Value)) (ds : List String)
    (h : List.Forall₂ (fun a d => param_description hdr graph operation a.1 a.2 = some d)
      attribs ds) (acc : String × Nat) :
    attribs.foldlM (attribStep hdr graph operation) acc
      = some (acc.1 ++ sepLoop id acc.2 ds, acc.2 + ds.length) := by
  induction h generalizing acc with
  | nil => simp [sepLoop]
  | @cons a d attribs ds had _ ih =>
    have e : acc.2 + (d :: ds).length = acc.2 + 1 + ds.length := by
      simp only [List.length_cons]; omega
    rw [e]
    simp only [List.foldlM_cons, attribStep, had, Option.bind_eq_bind, Option.some_bind,
      Option.pure_def, ih, sepLoop, id, String.append_assoc]

/-- The output loop of a call statement appends the output fragments, each
after `", "` unless it is the first fragment of the statement. -/
theorem callOutputs_text (graph : Graph) (outs : List (String × String))
    (ts : List Tensor)
    (houts : List.Forall₂ (fun o t => graph.tensorsAt o.2 = some t) outs ts)
    (s : Gen) (i : Nat) :
    ∃ s', (outs.map (fun o => (o.1, Value.identifier o.2))).foldlM (callOutput graph) (s, i)
        = some (s', i + outs.length)
      ∧ s'.fwd_text = s.fwd_text
          ++ sepLoop (fun o => o.1 ++ " => " ++ tensor_id s.op_list o.2) i outs := by
  induction houts generalizing s i with
  | nil => exact ⟨s, by simp [sepLoop]⟩
  | @cons o t outs ts hot _ ih =>
    have harith : i + (o :: outs).length = i + 1 + outs.length := by
      simp only [List.length_cons]; omega
    by_cases hmem : o.2 ∈ graph.outputs
    · obtain ⟨s', hs', hft⟩ := ih
        { s with
          output_types := setInsert (tensor_typename t) s.output_types
          fwd_text := s.fwd_text ++ (if i ≠ 0 then ", " else "") ++ o.1 ++ " => "
            ++ tensor_id s.op_list o.2
          all_types := setInsert (tensor_typename t) s.all_types } (i + 1)
      refine ⟨s', ?_, ?_⟩
      · rw [harith, ← hs']
        simp only [List.map_cons, List.foldlM_cons, callOutput, Value.identifier?, hot,
          Option.bind_eq_bind, Option.some_bind, Option.pure_def, hmem, if_true, if_false]
      · simp only [hft, sepLoop, String.append_assoc]
    · obtain ⟨s', hs', hft⟩ := ih
        { s with
          fwd_decl := s.fwd_decl ++ "        " ++ tensor_declaration s.op_list t ++ "\n"
          fwd_text := s.fwd_text ++ (if i ≠ 0 then ", " else "") ++ o.1 ++ " => "
            ++ tensor_id s.op_list o.2
          all_types := setInsert (tensor_typename t) s.all_types } (i + 1)
      refine ⟨s', ?_, ?_⟩
      · rw [harith, ← hs']
        simp only [List.map_cons, List.foldlM_cons, callOutput, Value.identifier?, hot,
          Option.bind_eq_bind, Option.some_bind, Option.pure_def, hmem, if_true, if_false]
      · simp only [hft, sepLoop, String.append_assoc]

/-- The claim C21: for an operation that is neither `external` nor `variable`,
whose attributes can be formatted (unless it is a `reshape`) and whose outputs
name tensors of the graph, the statement appended to the call buffer is the
indentation, the operation name, ` (`, the fragments joined by `", "`, `);` and
the end of line, where the fragments are the input fragments, then one per
attribute unless the operation is a `reshape`, then one per output. -/
theorem C21_call_statement (graph : Graph) (s : Gen) (operation : Operation)
    (ds : List String) (outs : List (String × String)) (ts : List Tensor)
    (hop : isLoadOp operation = false)
    (hattr : operation.name ≠ "reshape" →
      List.Forall₂ (fun a d => param_description hdr graph operation a.1 a.2 = some d)
        operation.attribs ds)
    (hout : operation.outputs = outs.map (fun o => (o.1, Value.identifier o.2)))
    (hts : List.Forall₂ (fun o t => graph.tensorsAt o.2 = some t) outs ts) :
    ∃ s', emitOperation hdr graph s operation = some s'
      ∧ s'.fwd_text = s.fwd_text ++ ("        " ++ operation.name ++ " ("
          ++ String.intercalate ", "
              (inputFragments hdr s.op_list operation
                ++ (if operation.name = "reshape" then [] else ds)
                ++ outs.map (fun o => o.1 ++ " => " ++ tensor_id s.op_list o.2))
          ++ ");" ++ "\n") := by
  have hne : operation.name ≠ "external" ∧ operation.name ≠ "variable" := by
    simpa [isLoadOp] using hop
  obtain ⟨hin, hlen⟩ := @inputLoop_zero hdr s.op_list operation
  have hatt : ∀ acc : String × Nat, attribLoop hdr graph operation acc
      = some (acc.1 ++ sepLoop id acc.2 (if operation.name = "reshape" then [] else ds),
          acc.2 + (if operation.name = "reshape" then [] else ds).length) := by
    intro acc
    unfold attribLoop
    by_cases hr : operation.name = "reshape"
    · simp [hr, sepLoop]
    · rw [if_pos hr, if_neg hr]
      exact attribSteps_text graph operation operation.attribs ds (hattr hr) acc
  obtain ⟨s', hs', htext⟩ := callOutputs_text graph outs ts hts
    { s with fwd_text := (s.fwd_text ++ "        " ++ operation.name ++ " ("
        ++ String.intercalate ", " (inputFragments hdr s.op_list operation)
        ++ sepLoop id operation.inputs.length
            (if operation.name = "reshape" then [] else ds)) }
    (operation.inputs.length + (if operation.name = "reshape" then [] else ds).length)
  refine ⟨{ s' with fwd_text := s'.fwd_text ++ ");" ++ "\n" }, ?_, ?_⟩
  · simp only [emitOperation, if_neg hne.1, if_neg hne.2, emitCall, hin, hatt, hout, hs',
      Option.bind_eq_bind, Option.some_bind, Option.pure_def]
  · have hz : ∀ l : List String, sepLoop id 0 l = String.intercalate ", " l := by
      intro l
      rw [sepLoop_zero, List.map_id]
    have key : String.intercalate ", "
          (inputFragments hdr s.op_list operation
            ++ (if operation.name = "reshape" then [] else ds)
            ++ outs.map (fun o => o.1 ++ " => " ++ tensor_id s.op_list o.2))
        = String.intercalate ", " (inputFragments hdr s.op_list operation)
          ++ sepLoop id operation.inputs.length
              (if operation.name = "reshape" then [] else ds)
          ++ sepLoop (fun o => o.1 ++ " => " ++ tensor_id s.op_list o.2)
              (operation.inputs.length
                + (if operation.name = "reshape" then [] else ds).length) outs := by
      rw [← hz, sepLoop_append, sepLoop_append, hz, zero_add, zero_add, List.length_append,
        hlen, ← sepLoop_map]
    rw [key]
    simp only [htext, String.append_assoc]

/-- Evidence for C21: a `max_pool` with one input, two attributes and one
output. -/
theorem C21_call_statement_witness :
    (isLoadOp poolWithSize = false
      ∧ param_description sampleHeader sampleGraph poolWithSize "size"
          (.array [.integer 1, .integer 1, .integer 2, .integer 2])
          = some "size => (1, 1, 2, 2)"
      ∧ param_description sampleHeader sampleGraph poolWithSize "border" (.string "ignore")
          = some "border => Border_Mode_ignore"
      ∧ poolWithSize.outputs
          = [("output", "y")].map (fun o => (o.1, Value.identifier o.2))
      ∧ sampleGraph.tensorsAt "y" = some { name := "y", dtype := "scalar", shape := [2, 3] })
    ∧ ∃ s', emitOperation sampleHeader sampleGraph (initGen sampleGraph) poolWithSize = some s'
      ∧ s'.fwd_text
        = "        max_pool (input => x, size => (1, 1, 2, 2), "
          ++ "border => Border_Mode_ignore, output => y);\n" :=
  ⟨⟨rfl, by decide, by decide, rfl, rfl⟩,
    C21_call_statement sampleGraph (initGen sampleGraph) poolWithSize
      ["size => (1, 1, 2, 2)", "border => Border_Mode_ignore"] [("output", "y")]
      [{ name := "y", dtype := "scalar", shape := [2, 3] }] rfl
      (fun _ => List.Forall₂.cons (by decide)
        (List.Forall₂.cons (by decide) List.Forall₂.nil))
      rfl (List.Forall₂.cons rfl List.Forall₂.nil)⟩

end Nnef2Ada
